import Mathlib

/-!
Verification development for the natural-language-to-filter pipeline of the
spreadsheet-alchemist repository.

The TypeScript sources are shallowly embedded here:
* a small model of JavaScript runtime values (`JVal`) and of the host
  primitives the sources call (`Number`, `String`, `trim`, `toLowerCase`,
  `JSON.parse` on flat arrays, `Date` parsing);
* `src/utils/dsl.ts` — the `FilterNode` shape and `applyFilter` evaluator;
* `src/utils/schema.ts` — `inferSchema`;
* `src/utils/filterRepair.ts` — `repairFilter`;
* `src/utils/nlToDsl.ts` — `nlToDsl` (the deterministic translator), with each
  of its regular expressions compiled by hand into an explicit matcher that
  follows the JS engine's lazy/greedy backtracking order;
* `src/utils/nlFallback.ts` — `heuristicFilter`;
* `src/app/api/nl/route.ts` — `finalizeFilter`, `pruneToKnownFields`,
  `hasAnyKnownField`, and the failure-`reason` computation of `POST`,
  with the network outcome of `callOllama` modelled explicitly.

Machine numbers are modelled as `Rat` (the numerals handled by these sources
are small decimals, where IEEE doubles behave exactly); host string primitives
are modelled on the ASCII domain the repository's data uses.
-/

namespace JS

/-- Character model of the JS regex class `\s` (the whitespace characters that
appear in this repository's data: space, tab, CR, LF, FF, VT). -/
def isJsSpace (c : Char) : Bool :=
  c = ' ' || c = '\t' || c = '\n' || c = '\x0d' || c = '\x0b' || c = '\x0c'

/-- Character model of the JS regex class `\w` = `[A-Za-z0-9_]`. -/
def isWordChar (c : Char) : Bool :=
  (('a' ≤ c && c ≤ 'z') || ('A' ≤ c && c ≤ 'Z') || ('0' ≤ c && c ≤ '9') || c = '_')

/-- ASCII digit test (JS regex `\d`). -/
def isDigitChar (c : Char) : Bool := '0' ≤ c && c ≤ '9'

/-- Lower-case a character (model of `String.prototype.toLowerCase` on ASCII). -/
def lowerChar (c : Char) : Char :=
  if 'A' ≤ c && c ≤ 'Z' then Char.ofNat (c.toNat + 32) else c

/-- Upper-case a character (model of `String.prototype.toUpperCase` on ASCII). -/
def upperChar (c : Char) : Char :=
  if 'a' ≤ c && c ≤ 'z' then Char.ofNat (c.toNat - 32) else c

/-- Model of `String.prototype.toLowerCase`. -/
def jsLower (s : String) : String := String.mk (s.data.map lowerChar)

/-- Case-insensitive character equality, as used by `/i`-flagged regexes. -/
def ciEqChar (a b : Char) : Bool := lowerChar a = lowerChar b

/-- Drop leading characters satisfying `p`. -/
def dropLeading (p : Char → Bool) : List Char → List Char
  | [] => []
  | c :: cs => if p c then dropLeading p cs else c :: cs

/-- Length of the maximal run of characters satisfying `p` at the front. -/
def countLeading (p : Char → Bool) : List Char → Nat
  | [] => 0
  | c :: cs => if p c then countLeading p cs + 1 else 0

/-- Model of `String.prototype.trim` (strips JS whitespace at both ends). -/
def jsTrim (s : String) : String :=
  String.mk ((dropLeading isJsSpace (dropLeading isJsSpace s.data.reverse).reverse))

/-- Does the first list occur as an initial segment of the second? -/
def listLeads : List Char → List Char → Bool
  | [], _ => true
  | _ :: _, [] => false
  | a :: as, b :: bs => a = b && listLeads as bs

/-- Case-insensitive variant of `listLeads` (for `/i`-flagged literals). -/
def listLeadsCI : List Char → List Char → Bool
  | [], _ => true
  | _ :: _, [] => false
  | a :: as, b :: bs => ciEqChar a b && listLeadsCI as bs

/-- List-level substring containment (the second occurs contiguously inside the first). -/
def listHasInfix (hay needle : List Char) : Bool :=
  match hay with
  | [] => needle.isEmpty
  | _ :: rest => listLeads needle hay || listHasInfix rest needle

/-- Model of `String.prototype.includes`. -/
def strIncludes (hay needle : String) : Bool := listHasInfix hay.data needle.data

/-- Case-insensitive substring test (used for `/pat/i.test(s)` on literal patterns). -/
def strIncludesCI (hay needle : String) : Bool :=
  strIncludes (jsLower hay) (jsLower needle)

/-- Model of `String.prototype.startsWith`. -/
def jsStartsWith (s pre : String) : Bool := listLeads pre.data s.data

/-- Model of `String.prototype.endsWith`. -/
def jsEndsWith (s suf : String) : Bool := listLeads suf.data.reverse s.data.reverse

/-- JS UTF-16 code-unit lexicographic `<` on strings (BMP model). -/
def listStrLt : List Char → List Char → Bool
  | [], [] => false
  | [], _ :: _ => true
  | _ :: _, [] => false
  | a :: as, b :: bs =>
    if a.toNat < b.toNat then true
    else if b.toNat < a.toNat then false
    else listStrLt as bs

/-- Model of the JS `<` operator on two strings. -/
def jsStrLt (a b : String) : Bool := listStrLt a.data b.data

end JS

/-- Model of a JavaScript runtime value as these sources use them.
Numbers are `Rat`: every numeral the pipeline handles is a small decimal,
on which IEEE doubles are exact. `undefined` is the JS `undefined`. -/
inductive JVal where
  | undefined : JVal
  | jnull : JVal
  | bool (b : Bool) : JVal
  | num (q : Rat) : JVal
  | str (s : String) : JVal
  | arr (elems : List JVal) : JVal
  | obj (fields : List (String × JVal)) : JVal

mutual

def JVal.decEq : (a b : JVal) → Decidable (a = b)
  | .undefined, .undefined => isTrue rfl
  | .jnull, .jnull => isTrue rfl
  | .bool x, .bool y =>
    if h : x = y then isTrue (by rw [h]) else isFalse (fun hh => h (JVal.bool.inj hh))
  | .num x, .num y =>
    if h : x = y then isTrue (by rw [h]) else isFalse (fun hh => h (JVal.num.inj hh))
  | .str x, .str y =>
    if h : x = y then isTrue (by rw [h]) else isFalse (fun hh => h (JVal.str.inj hh))
  | .arr x, .arr y =>
    match JVal.decEqList x y with
    | isTrue h => isTrue (by rw [h])
    | isFalse h => isFalse (fun hh => h (JVal.arr.inj hh))
  | .obj x, .obj y =>
    match JVal.decEqObj x y with
    | isTrue h => isTrue (by rw [h])
    | isFalse h => isFalse (fun hh => h (JVal.obj.inj hh))
  | .undefined, .jnull | .undefined, .bool _ | .undefined, .num _ | .undefined, .str _
  | .undefined, .arr _ | .undefined, .obj _
  | .jnull, .undefined | .jnull, .bool _ | .jnull, .num _ | .jnull, .str _
  | .jnull, .arr _ | .jnull, .obj _
  | .bool _, .undefined | .bool _, .jnull | .bool _, .num _ | .bool _, .str _
  | .bool _, .arr _ | .bool _, .obj _
  | .num _, .undefined | .num _, .jnull | .num _, .bool _ | .num _, .str _
  | .num _, .arr _ | .num _, .obj _
  | .str _, .undefined | .str _, .jnull | .str _, .bool _ | .str _, .num _
  | .str _, .arr _ | .str _, .obj _
  | .arr _, .undefined | .arr _, .jnull | .arr _, .bool _ | .arr _, .num _
  | .arr _, .str _ | .arr _, .obj _
  | .obj _, .undefined | .obj _, .jnull | .obj _, .bool _ | .obj _, .num _
  | .obj _, .str _ | .obj _, .arr _ => isFalse nofun

def JVal.decEqList : (a b : List JVal) → Decidable (a = b)
  | [], [] => isTrue rfl
  | [], _ :: _ => isFalse nofun
  | _ :: _, [] => isFalse nofun
  | x :: xs, y :: ys =>
    match JVal.decEq x y, JVal.decEqList xs ys with
    | isTrue h1, isTrue h2 => isTrue (by rw [h1, h2])
    | isFalse h1, _ => isFalse (fun hh => h1 (List.cons.inj hh).1)
    | _, isFalse h2 => isFalse (fun hh => h2 (List.cons.inj hh).2)

def JVal.decEqObj : (a b : List (String × JVal)) → Decidable (a = b)
  | [], [] => isTrue rfl
  | [], _ :: _ => isFalse nofun
  | _ :: _, [] => isFalse nofun
  | (k1, v1) :: xs, (k2, v2) :: ys =>
    match String.decEq k1 k2, JVal.decEq v1 v2, JVal.decEqObj xs ys with
    | isTrue hk, isTrue hv, isTrue ht => isTrue (by rw [hk, hv, ht])
    | isFalse hk, _, _ =>
      isFalse (fun hh => hk (congrArg Prod.fst (List.cons.inj hh).1))
    | _, isFalse hv, _ =>
      isFalse (fun hh => hv (congrArg Prod.snd (List.cons.inj hh).1))
    | _, _, isFalse ht => isFalse (fun hh => ht (List.cons.inj hh).2)

end

instance : DecidableEq JVal := JVal.decEq

/-- JS truthiness of a value (as used by `!r1 && !r2`, `node.field && …`). -/
def JVal.truthy : JVal → Bool
  | .undefined => false
  | .jnull => false
  | .bool b => b
  | .num q => q ≠ 0
  | .str s => s ≠ ""
  | .arr _ => true
  | .obj _ => true

/-- The decimal digit character for a residue. -/
def digitChar (k : Nat) : Char :=
  match k with
  | 0 => '0'
  | 1 => '1'
  | 2 => '2'
  | 3 => '3'
  | 4 => '4'
  | 5 => '5'
  | 6 => '6'
  | 7 => '7'
  | 8 => '8'
  | _ => '9'

/-- Decimal digits of a natural number (most significant first); the fuel is
any bound on the digit count, `n + 1` suffices. -/
def natDecCharsGo : Nat → Nat → List Char
  | 0, _ => []
  | fuel + 1, n =>
    if n < 10 then [digitChar n]
    else natDecCharsGo fuel (n / 10) ++ [digitChar (n % 10)]

/-- Decimal string of a natural number. -/
def natToDecString (n : Nat) : String := String.mk (natDecCharsGo (n + 1) n)

/-- Decimal string for an integer (helper for the `String(number)` model). -/
def intToDecString (i : Int) : String :=
  (if i < 0 then "-" else "") ++ natToDecString i.natAbs

/-- Model of JS number-to-string conversion. Exact for integers, which is the
numeric domain this pipeline produces; a non-integral rational is rendered as
a fraction (never exercised by the theorems below). -/
def ratToJsString (q : Rat) : String :=
  if q.den = 1 then intToDecString q.num
  else intToDecString q.num ++ "/" ++ natToDecString q.den

mutual

/-- Model of the JS `String(v)` conversion. -/
def jsString : JVal → String
  | .undefined => "undefined"
  | .jnull => "null"
  | .bool b => if b then "true" else "false"
  | .num q => ratToJsString q
  | .str s => s
  | .arr l => jsArrJoin l
  | .obj _ => "[object Object]"

/-- Model of `Array.prototype.toString` (comma join; null/undefined → empty). -/
def jsArrJoin : List JVal → String
  | [] => ""
  | v :: rest =>
    (match v with
     | .undefined => ""
     | .jnull => ""
     | w => jsString w) ++ (if rest.isEmpty then "" else "," ++ jsArrJoin rest)

end

/-- Parse an unsigned decimal numeral (`digits`, `digits.digits`, `.digits`,
`digits.`) as a rational, the forms `Number()` accepts besides sign/space.
Exponents and hex are outside this model (never produced by the pipeline). -/
def parseUnsignedDec (cs : List Char) : Option Rat :=
  let intPart := cs.takeWhile JS.isDigitChar
  let rest := cs.drop intPart.length
  match rest with
  | [] =>
    if intPart.isEmpty then none
    else some (mkRat (intPart.foldl (fun a c => a * 10 + (c.toNat - 48)) 0 : Nat) 1)
  | '.' :: frac =>
    if frac.all JS.isDigitChar ∧ ¬(intPart.isEmpty ∧ frac.isEmpty) then
      let ip : Nat := intPart.foldl (fun a c => a * 10 + (c.toNat - 48)) 0
      let fp : Nat := frac.foldl (fun a c => a * 10 + (c.toNat - 48)) 0
      some (mkRat (ip * 10 ^ frac.length + fp : Nat) (10 ^ frac.length))
    else none
  | _ => none

/-- Model of `Number(string)`: trim, empty → 0, optional sign, decimal numeral;
`none` models NaN (and the non-finite results, which the sources treat alike
through `Number.isFinite`). -/
def jsStrToNum (s : String) : Option Rat :=
  let t := (JS.jsTrim s).data
  match t with
  | [] => some 0
  | '-' :: rest => (parseUnsignedDec rest).map (fun q => -q)
  | '+' :: rest => parseUnsignedDec rest
  | _ => parseUnsignedDec t

/-- Model of `Number(v)` restricted to finite results: `none` models a
non-finite outcome (`NaN`/`±Infinity`), which is all the sources ever test. -/
def jsToNumber : JVal → Option Rat
  | .undefined => none
  | .jnull => some 0
  | .bool b => some (if b then 1 else 0)
  | .num q => some q
  | .str s => jsStrToNum s
  | .arr l => jsStrToNum (jsArrJoin l)
  | .obj _ => none

/-- The JS `v ?? ''` used before `String(...)` in several helpers. -/
def nullishToEmpty : JVal → JVal
  | .undefined => .str ""
  | .jnull => .str ""
  | v => v

/-- Embeds `normStr` of `dsl.ts`: `String(x ?? '').trim().toLowerCase()`. -/
def normStr (x : JVal) : String := JS.jsLower (JS.jsTrim (jsString (nullishToEmpty x)))

/-- Skip JSON whitespace (space, tab, CR, LF). -/
def skipJsonWs : List Char → List Char
  | [] => []
  | c :: cs => if c = ' ' || c = '\t' || c = '\n' || c = '\x0d' then skipJsonWs cs else c :: cs

/-- Scan a JSON string literal body up to the closing quote. Escape sequences
are outside this model (the repository's cell data contains none); a backslash
makes the parse fail rather than be misread. -/
def scanJsonString : List Char → List Char → Option (String × List Char)
  | [], _ => none
  | '"' :: rest, acc => some (String.mk acc.reverse, rest)
  | '\\' :: _, _ => none
  | c :: rest, acc => scanJsonString rest (c :: acc)

/-- Negate when the sign flag is set. -/
def negIf (b : Bool) (q : Rat) : Rat := if b then -q else q

/-- Parse a JSON numeral after the optional sign. -/
def parseJsonNumber (neg : Bool) (cs1 : List Char) : Option (JVal × List Char) :=
  let digits := cs1.takeWhile JS.isDigitChar
  if digits.isEmpty then none
  else
    let afterInt := cs1.drop digits.length
    let ip : Nat := digits.foldl (fun a c => a * 10 + (c.toNat - 48)) 0
    match afterInt with
    | '.' :: fracRest =>
      let frac := fracRest.takeWhile JS.isDigitChar
      if frac.isEmpty then none
      else
        let fp : Nat := frac.foldl (fun a c => a * 10 + (c.toNat - 48)) 0
        let q : Rat := mkRat (ip * 10 ^ frac.length + fp : Nat) (10 ^ frac.length)
        some (JVal.num (negIf neg q), fracRest.drop frac.length)
    | _ =>
      some (JVal.num (negIf neg (mkRat ip 1)), afterInt)

/-- Parse one JSON scalar (string, number, true/false/null). -/
def parseJsonScalar (cs : List Char) : Option (JVal × List Char) :=
  match cs with
  | '"' :: rest => (scanJsonString rest []).map (fun p => (JVal.str p.1, p.2))
  | _ =>
    if JS.listLeads "true".data cs then some (JVal.bool true, cs.drop 4)
    else if JS.listLeads "false".data cs then some (JVal.bool false, cs.drop 5)
    else if JS.listLeads "null".data cs then some (JVal.jnull, cs.drop 4)
    else
      match cs with
      | '-' :: rest => parseJsonNumber true rest
      | _ => parseJsonNumber false cs

/-- Parse the comma-separated items of a flat JSON array, after `[`. -/
def parseJsonItems (fuel : Nat) (cs : List Char) : Option (List JVal × List Char) :=
  match fuel with
  | 0 => none
  | fuel + 1 =>
    match parseJsonScalar (skipJsonWs cs) with
    | none => none
    | some (v, rest) =>
      match skipJsonWs rest with
      | ',' :: rest2 =>
        (parseJsonItems fuel rest2).map (fun p => (v :: p.1, p.2))
      | ']' :: rest2 => some ([v], rest2)
      | _ => none

/-- Model of `JSON.parse(s)` restricted to what the sources consume from it:
`some items` exactly when `s` is a JSON **array of scalars** (every call site
checks `Array.isArray` and discards anything else, so `none` covers both a
parse error and a non-array result; nested arrays/objects do not occur in the
repository's cell encodings and are out of this model). -/
def jsonParseFlatArr (s : String) : Option (List JVal) :=
  match skipJsonWs s.data with
  | '[' :: rest =>
    match skipJsonWs rest with
    | ']' :: tail => if (skipJsonWs tail).isEmpty then some [] else none
    | body =>
      match parseJsonItems (body.length + 1) body with
      | some (items, tail) => if (skipJsonWs tail).isEmpty then some items else none
      | none => none
  | _ => none

/-- Row model: a JS object used as a record of cells. Key lookup returns
`undefined` when absent. (Object literals cannot repeat a key, so first-match
lookup is exact.) -/
abbrev Row : Type := List (String × JVal)

/-- Model of `row[key]`. -/
def rowGetKey (row : Row) (key : String) : JVal :=
  match (List.find? (fun p => p.1 = key) row : Option (String × JVal)) with
  | some p => p.2
  | none => .undefined

/-- Model of `row[n.field!]`: JS coerces an `undefined` property name to the
literal key `"undefined"`. -/
def rowGet (row : Row) (field : Option String) : JVal :=
  rowGetKey row (field.getD "undefined")

/-- Operator tags of the filter DSL (`dsl.ts` / `filterRepair.ts`); `in_` and
`nin` embed the JS `'in'` / `'nin'`. -/
inductive Op where
  | and | or | not | cmp | includes | contains | in_ | nin
  | startsWith | endsWith | regex | exists | notExists | between
deriving DecidableEq, Repr

/-- The six comparison tags `'>' '>=' '<' '<=' '==' '!='`. -/
inductive CmpOp where
  | gt | ge | lt | le | eq | ne
deriving DecidableEq, Repr

/-- The loosely-typed single-shape filter node of the sources: every operator
carries the same optional slots. `value`, `from'` and `to'` use `JVal.undefined`
for an absent property (property access on a JS object yields `undefined`);
`field`, `cmp`, `values` and `children` distinguish presence with `Option`
because the sources test them with `&&` / `?? []`. -/
inductive FilterNode where
  | mk (op : Op) (field : Option String) (cmp : Option CmpOp) (value : JVal)
      (values : Option (List JVal)) (from' : JVal) (to' : JVal)
      (children : Option (List FilterNode)) : FilterNode

mutual

def FilterNode.decEq : (a b : FilterNode) → Decidable (a = b)
  | .mk o1 f1 c1 v1 vs1 fr1 t1 ch1, .mk o2 f2 c2 v2 vs2 fr2 t2 ch2 =>
    match FilterNode.decEqOptList ch1 ch2 with
    | isFalse h =>
      isFalse (fun hh => h (FilterNode.mk.inj hh).2.2.2.2.2.2.2)
    | isTrue hch =>
      if h : o1 = o2 ∧ f1 = f2 ∧ c1 = c2 ∧ v1 = v2 ∧ vs1 = vs2 ∧ fr1 = fr2 ∧ t1 = t2 then
        isTrue (by
          obtain ⟨h1, h2, h3, h4, h5, h6, h7⟩ := h
          rw [h1, h2, h3, h4, h5, h6, h7, hch])
      else
        isFalse (fun hh => by
          obtain ⟨h1, h2, h3, h4, h5, h6, h7, _⟩ := FilterNode.mk.inj hh
          exact h ⟨h1, h2, h3, h4, h5, h6, h7⟩)

def FilterNode.decEqOptList : (a b : Option (List FilterNode)) → Decidable (a = b)
  | none, none => isTrue rfl
  | none, some _ => isFalse nofun
  | some _, none => isFalse nofun
  | some l1, some l2 =>
    match FilterNode.decEqList l1 l2 with
    | isTrue h => isTrue (by rw [h])
    | isFalse h => isFalse (fun hh => h (Option.some.inj hh))

def FilterNode.decEqList : (a b : List FilterNode) → Decidable (a = b)
  | [], [] => isTrue rfl
  | [], _ :: _ => isFalse nofun
  | _ :: _, [] => isFalse nofun
  | x :: xs, y :: ys =>
    match FilterNode.decEq x y, FilterNode.decEqList xs ys with
    | isTrue h1, isTrue h2 => isTrue (by rw [h1, h2])
    | isFalse h1, _ => isFalse (fun hh => h1 (List.cons.inj hh).1)
    | _, isFalse h2 => isFalse (fun hh => h2 (List.cons.inj hh).2)

end

instance : DecidableEq FilterNode := FilterNode.decEq

def FilterNode.op : FilterNode → Op
  | .mk o _ _ _ _ _ _ _ => o

def FilterNode.field : FilterNode → Option String
  | .mk _ f _ _ _ _ _ _ => f

def FilterNode.cmp : FilterNode → Option CmpOp
  | .mk _ _ c _ _ _ _ _ => c

def FilterNode.value : FilterNode → JVal
  | .mk _ _ _ v _ _ _ _ => v

def FilterNode.values : FilterNode → Option (List JVal)
  | .mk _ _ _ _ vs _ _ _ => vs

def FilterNode.fromVal : FilterNode → JVal
  | .mk _ _ _ _ _ fr _ _ => fr

def FilterNode.toVal : FilterNode → JVal
  | .mk _ _ _ _ _ _ t _ => t

def FilterNode.children : FilterNode → Option (List FilterNode)
  | .mk _ _ _ _ _ _ _ ch => ch

/-- Leaf `{op:'cmp', field, cmp, value}` as the sources build it. -/
def cmpNode (f : String) (c : CmpOp) (v : JVal) : FilterNode :=
  .mk .cmp (some f) (some c) v none .undefined .undefined none

/-- Leaf `{op:'includes', field, value}`. -/
def includesNode (f : String) (v : JVal) : FilterNode :=
  .mk .includes (some f) none v none .undefined .undefined none

/-- Leaf `{op:'contains', field, value}`. -/
def containsNode (f : String) (v : JVal) : FilterNode :=
  .mk .contains (some f) none v none .undefined .undefined none

/-- Composite `{op:'and', children}`. -/
def andNode (cs : List FilterNode) : FilterNode :=
  .mk .and none none .undefined none .undefined .undefined (some cs)

/-- Model of `s.split(/[,;]+/)`: runs of `,`/`;` separate; a leading or
trailing separator contributes an empty segment, as in JS. -/
def splitCommaSemiGo : List Char → List Char → Bool → List String
  | [], acc, _ => [String.mk acc.reverse]
  | c :: cs, acc, inRun =>
    if c = ',' || c = ';' then
      if inRun then splitCommaSemiGo cs acc true
      else String.mk acc.reverse :: splitCommaSemiGo cs [] true
    else splitCommaSemiGo cs (c :: acc) false

def splitCommaSemi (s : String) : List String :=
  splitCommaSemiGo s.data [] false

/-- Embeds `cellToTokens` of `dsl.ts`. -/
def cellToTokens (v : JVal) : List String :=
  match v with
  | .undefined => []
  | .jnull => []
  | .arr l => (l.map normStr).filter (fun t => t ≠ "")
  | v =>
    let s := JS.jsTrim (jsString v)
    let parsed : Option (List JVal) :=
      if JS.jsStartsWith s "[" && JS.jsEndsWith s "]" then jsonParseFlatArr s else none
    match parsed with
    | some a => (a.map normStr).filter (fun t => t ≠ "")
    | none => ((splitCommaSemi s).map (fun t => normStr (.str t))).filter (fun t => t ≠ "")

/-- Embeds the `'cmp'` case of the evaluator: numeric when both operands are
finite numbers, else normalized-string comparison. -/
def cmpEval (Lraw : JVal) (c : Option CmpOp) (Rraw : JVal) : Bool :=
  match jsToNumber Lraw, jsToNumber Rraw with
  | some Ln, some Rn =>
    match c with
    | some .gt => decide (Ln > Rn)
    | some .ge => decide (Ln ≥ Rn)
    | some .lt => decide (Ln < Rn)
    | some .le => decide (Ln ≤ Rn)
    | some .eq => decide (Ln = Rn)
    | some .ne => decide (Ln ≠ Rn)
    | none => false
  | _, _ =>
    let Ls := normStr Lraw
    let Rs := normStr Rraw
    match c with
    | some .eq => decide (Ls = Rs)
    | some .ne => decide (Ls ≠ Rs)
    | some .gt => JS.jsStrLt Rs Ls
    | some .ge => JS.jsStrLt Rs Ls || decide (Ls = Rs)
    | some .lt => JS.jsStrLt Ls Rs
    | some .le => JS.jsStrLt Ls Rs || decide (Ls = Rs)
    | none => false

/-- Modelled host primitive: `new RegExp(String(pat), 'i').test(s)` restricted
to literal patterns (the only kind this repository's filters produce):
case-insensitive substring test. -/
def jsRegexTestCI (pat s : String) : Bool := JS.strIncludesCI s pat

mutual

/-- Embeds the row predicate `test` inside `applyFilter` of `dsl.ts`. -/
def testNode (row : Row) : FilterNode → Bool
  | .mk .and _ _ _ _ _ _ (some cs) => testAllChildren row cs
  | .mk .and _ _ _ _ _ _ none => true
  | .mk .or _ _ _ _ _ _ (some cs) => testAnyChildren row cs
  | .mk .or _ _ _ _ _ _ none => false
  | .mk .not _ _ _ _ _ _ (some (c :: _)) => !(testNode row c)
  | .mk .not _ _ _ _ _ _ (some []) => !false
  | .mk .not _ _ _ _ _ _ none => !false
  | .mk .cmp field c value _ _ _ _ => cmpEval (rowGet row field) c value
  | .mk .includes field _ value _ _ _ _ =>
    let hay := cellToTokens (rowGet row field)
    let needle := normStr value
    hay.any (fun t => decide (t = needle) || JS.strIncludes t needle)
  | .mk .contains field _ value _ _ _ _ =>
    JS.strIncludes (normStr (rowGet row field)) (normStr value)
  | .mk .in_ field _ _ values _ _ _ =>
    ((values.getD []).map normStr).contains (normStr (rowGet row field))
  | .mk .nin field _ _ values _ _ _ =>
    !((values.getD []).map normStr).contains (normStr (rowGet row field))
  | .mk .startsWith field _ value _ _ _ _ =>
    JS.jsStartsWith (normStr (rowGet row field)) (normStr value)
  | .mk .endsWith field _ value _ _ _ _ =>
    JS.jsEndsWith (normStr (rowGet row field)) (normStr value)
  | .mk .regex field _ value _ _ _ _ =>
    jsRegexTestCI (jsString value) (jsString (nullishToEmpty (rowGet row field)))
  | .mk .exists field _ _ _ _ _ _ =>
    let v := rowGet row field
    !(decide (v = .undefined) || decide (v = .jnull) || decide (JS.jsTrim (jsString v) = ""))
  | .mk .notExists field _ _ _ _ _ _ =>
    let v := rowGet row field
    decide (v = .undefined) || decide (v = .jnull) || decide (JS.jsTrim (jsString v) = "")
  | .mk .between field _ _ _ fr t _ =>
    match jsToNumber (rowGet row field), jsToNumber fr, jsToNumber t with
    | some L, some A, some B => decide (min A B ≤ L) && decide (L ≤ max A B)
    | _, _, _ =>
      let Ls := normStr (rowGet row field)
      let As := normStr fr
      let Bs := normStr t
      let lo := if JS.jsStrLt As Bs then As else Bs
      let hi := if JS.jsStrLt As Bs then Bs else As
      (JS.jsStrLt lo Ls || decide (Ls = lo)) && (JS.jsStrLt Ls hi || decide (Ls = hi))

def testAllChildren (row : Row) : List FilterNode → Bool
  | [] => true
  | c :: cs => testNode row c && testAllChildren row cs

def testAnyChildren (row : Row) : List FilterNode → Bool
  | [] => false
  | c :: cs => testNode row c || testAnyChildren row cs

end

/-- Embeds `applyFilter` of `dsl.ts`: `rows.filter(r => test(r, node))`. -/
def applyFilter (rows : List Row) (node : FilterNode) : List Row :=
  rows.filter (fun r => testNode r node)

/-- Column types of `schema.ts` / `filterRepair.ts`. -/
inductive FieldType where
  | number | string | array | boolean | date | unknown
deriving DecidableEq, Repr

/-- The `FieldSchema` record shared by `schema.ts` and `filterRepair.ts`. -/
structure FieldSchema where
  name : String
  type : FieldType
  samples : List JVal
deriving DecidableEq

mutual

/-- Model of `JSON.stringify` on the (flat) arrays the schema samples hold.
String escaping is outside the model: the repository's cell tokens contain no
quotes or backslashes. -/
def jsonStringifyVal : JVal → String
  | .undefined => "null"
  | .jnull => "null"
  | .bool b => if b then "true" else "false"
  | .num q => ratToJsString q
  | .str s => "\"" ++ s ++ "\""
  | .arr l => "[" ++ jsonStringifyItems l ++ "]"
  | .obj _ => "\x7b\x7d"

def jsonStringifyItems : List JVal → String
  | [] => ""
  | v :: rest =>
    jsonStringifyVal v ++ (if rest.isEmpty then "" else "," ++ jsonStringifyItems rest)

end

/-- Embeds `isArrayLike` of `schema.ts`: a native array, or a string whose
trimmed form parses as a JSON array; the explicit comma case of the source
(`if (s.includes(',')) return false`) is unreachable and kept as-is. -/
def isArrayLike (v : JVal) : Bool :=
  match v with
  | .arr _ => true
  | v =>
    let s := JS.jsTrim (jsString (nullishToEmpty v))
    if JS.jsStartsWith s "[" && JS.jsEndsWith s "]" then (jsonParseFlatArr s).isSome
    else if JS.strIncludes s "," then false
    else false

/-- Embeds `isNumericLike` of `schema.ts` (`Number.isFinite(Number(v))`). -/
def isNumericLike (v : JVal) : Bool := (jsToNumber v).isSome

/-- Embeds `isBooleanLike` of `schema.ts`. -/
def isBooleanLike (v : JVal) : Bool :=
  let s := JS.jsLower (JS.jsTrim (jsString (nullishToEmpty v)))
  s = "true" || s = "false" || v = .bool true || v = .bool false

/-- Does the string have the ISO `YYYY-MM-DD` shape? -/
def isIsoDateShape (s : String) : Bool :=
  match s.data with
  | [a, b, c, d, '-', e, f, '-', g, h] =>
    [a, b, c, d, e, f, g, h].all JS.isDigitChar
  | _ => false

/-- Modelled host primitive: `!isNaN(new Date(v).getTime())`. Numbers and
booleans (epoch millis after coercion) and `null` (epoch 0) are valid; a
string is valid in this model when it is an ISO `YYYY-MM-DD` date or a short
bare digit-run (a year); other strings and objects are invalid. This covers
the date shapes the repository's samples contain. -/
def isDateLike (v : JVal) : Bool :=
  match v with
  | .num _ => true
  | .bool _ => true
  | .jnull => true
  | .undefined => false
  | .obj _ => false
  | .str s => isIsoDateShape s || (s ≠ "" && s.data.all JS.isDigitChar && s.length ≤ 4)
  | .arr l => isIsoDateShape (jsString (.arr l))

/-- Embeds `stringifyValueSample` of `schema.ts`. The `number` branch returns
`Number(v)`, which is finite for every value of a number-typed column. -/
def stringifyValueSample (v : JVal) (t : FieldType) : JVal :=
  match t with
  | .array =>
    match v with
    | .arr l => .str (jsonStringifyVal (.arr l))
    | _ => .str (jsString v)
  | .number => .num ((jsToNumber v).getD 0)
  | .boolean => .bool (JS.jsLower (jsString v) = "true")
  | _ => .str (jsString v)

/-- The non-null values sampled from the first 200 rows for one column
(the `values` local of `inferSchema`). -/
def sampledValues (rows : List Row) (name : String) : List JVal :=
  ((rows.take 200).map (fun r => rowGetKey r name)).filter
    (fun v => !(v = .undefined || v = .jnull))

/-- The `uniq` collection loop of `inferSchema` (dedup by normalized sample,
break at `maxSamples`). -/
def collectSamples (ty : FieldType) (maxSamples : Nat) : List JVal → List JVal → List JVal
  | [], uniq => uniq
  | v :: vs, uniq =>
    let sv := stringifyValueSample v ty
    let uniq' := if uniq.contains sv then uniq else uniq ++ [sv]
    if maxSamples ≤ uniq'.length then uniq' else collectSamples ty maxSamples vs uniq'

/-- Embeds `inferSchema` of `schema.ts`. -/
def inferSchema (rows : List Row) (maxSamples : Nat := 6) : List FieldSchema :=
  match rows with
  | [] => []
  | r0 :: _ =>
    (r0.map Prod.fst).map (fun name =>
      let values := sampledValues rows name
      let ty : FieldType :=
        if values.any isArrayLike then .array
        else if values.all isNumericLike then .number
        else if values.all isBooleanLike then .boolean
        else if values.any isDateLike then .date
        else .string
      ⟨name, ty, collectSamples ty maxSamples values []⟩)

namespace FilterRepair

/-- Embeds `looksJsonArray` of `filterRepair.ts`. -/
def looksJsonArray (s : String) : Bool :=
  JS.jsStartsWith s "[" && JS.jsEndsWith s "]"

/-- Embeds `normalize` of `filterRepair.ts`:
`s.toLowerCase().replace(/[\s_-]+/g, '')`. -/
def normalize (s : String) : String :=
  String.mk ((JS.jsLower s).data.filter (fun c => !(JS.isJsSpace c || c = '_' || c = '-')))

/-- Embeds `ngrams` of `filterRepair.ts`. -/
def ngrams (s : String) (n : Nat) : List String :=
  if s.length ≤ n then [s]
  else (List.range (s.length - n + 1)).map (fun i => String.mk ((s.data.drop i).take n))

/-- Embeds `stringSim` of `filterRepair.ts` (Jaccard similarity on 3-grams).
The score is the exact rational `inter/union`; for these operand sizes the
double-precision quotient of the source compares to its `0.65` literal exactly
as the rational compares to `13/20`. -/
def stringSim (a b : String) : Rat :=
  if a = b then 1
  else if a = "" || b = "" then 0
  else
    let A := ngrams a 3
    let B := ngrams b 3
    let inter := (A.filter (fun x => B.contains x)).length
    let union := (A ++ B).dedup.length
    if union = 0 then 0 else mkRat inter union

/-- The running best of the fuzzy loop in `fixField` (first strict improvement
wins, as in `if (!best || s > best.score)`). -/
def bestSim (norm : String) (cols : List String) : Option (String × Rat) :=
  cols.foldl
    (fun best c =>
      let s := stringSim norm (normalize c)
      match best with
      | none => some (c, s)
      | some (bc, bs) => if s > bs then some (c, s) else some (bc, bs))
    none

/-- Embeds `fixField` of `filterRepair.ts` (closure over the schema columns):
exact match, case-insensitive match, 3-gram Jaccard at threshold `0.65`,
substring containment of the normalized input, else unchanged. -/
def fixField (cols : List String) : Option String → Option String
  | none => none
  | some f =>
    if f = "" then some f
    else
      match cols.find? (fun c => c = f) with
      | some m => some m
      | none =>
        match cols.find? (fun c => JS.jsLower c = JS.jsLower f) with
        | some m => some m
        | none =>
          let norm := normalize f
          match bestSim norm cols with
          | some (bc, bs) =>
            if bs ≥ mkRat 13 20 then some bc
            else some ((cols.find? (fun c => JS.strIncludes (normalize c) norm)).getD f)
          | none => some ((cols.find? (fun c => JS.strIncludes (normalize c) norm)).getD f)

/-- Last-entry schema lookup: the source builds JS `Record`s keyed by column
name, where a repeated name keeps the last entry. -/
def lookupSchema (schema : List FieldSchema) (f : String) : Option FieldSchema :=
  schema.reverse.find? (fun s => s.name = f)

/-- The `types[f] ?? 'unknown'` lookup of `repairFilter`. -/
def typeOfField (schema : List FieldSchema) (f : String) : FieldType :=
  ((lookupSchema schema f).map FieldSchema.type).getD .unknown

/-- The per-column list-likeness computed at the top of `repairFilter`:
array-typed, or a sample that is JSON-array-shaped, or (for a string-typed
column) a sample containing a comma. -/
def listyEntry (s : FieldSchema) : Bool :=
  s.type = .array ||
    s.samples.any (fun v =>
      let str := JS.jsTrim (jsString (nullishToEmpty v))
      (s.type = .string && (JS.strIncludes str "," || looksJsonArray str)) ||
        looksJsonArray str)

/-- The `listy[f]` lookup (`undefined`, hence false, for an unknown column). -/
def listy (schema : List FieldSchema) (f : String) : Bool :=
  ((lookupSchema schema f).map listyEntry).getD false

/-- Embeds `parseMaybeNumber` of `filterRepair.ts`. -/
def parseMaybeNumber (x : String) : JVal :=
  match jsStrToNum x with
  | some n => .num n
  | none => .str x

/-- Modelled host primitive: `new Date(v).toISOString()` guarded by the
`isNaN` check of the `date` coercion branch. The model recognizes the ISO
`YYYY-MM-DD` string shape (rendered at UTC midnight) and reports every other
input invalid, in which case the caller keeps the value unchanged. -/
def jsDateToISOModel (v : JVal) : Option String :=
  match v with
  | .str s => if isIsoDateShape s then some (s ++ "T00:00:00.000Z") else none
  | _ => none

/-- Embeds `coerceForField` of `filterRepair.ts`. -/
def coerceForField (schema : List FieldSchema) (f : Option String) (v : JVal) : JVal :=
  match f with
  | none => v
  | some f =>
    if f = "" then v
    else
      match typeOfField schema f with
      | .number =>
        match jsToNumber v with
        | some n => .num n
        | none => v
      | .boolean =>
        let s := JS.jsLower (JS.jsTrim (jsString v))
        if s = "true" || v = .bool true then .bool true
        else if s = "false" || v = .bool false then .bool false
        else v
      | .array =>
        match v with
        | .arr _ => v
        | _ =>
          let s := JS.jsTrim (jsString (nullishToEmpty v))
          if s = "" then .arr []
          else
            match (if looksJsonArray s then jsonParseFlatArr s else none) with
            | some a => .arr a
            | none =>
              .arr (((splitCommaSemi s).map
                  (fun x => parseMaybeNumber (JS.jsTrim x))).filter
                (fun x => x ≠ .str ""))
      | .date =>
        match jsDateToISOModel v with
        | some iso => .str iso
        | none => v
      | _ => v

/-- Does the walk's `value`-coercion list contain this operator
(`cmp`, `contains`, `includes`, `startsWith`, `endsWith`, `regex`)? -/
def coercesValue (op : Op) : Bool :=
  op = .cmp || op = .contains || op = .includes || op = .startsWith ||
    op = .endsWith || op = .regex

mutual

/-- Embeds the `walk` closure of `repairFilter`. -/
def walk (schema : List FieldSchema) (soften : Bool) : FilterNode → FilterNode
  | .mk op field cmpo value values fr t (some cs) =>
    .mk op field cmpo value values fr t (some (walkList schema soften cs))
  | .mk op field cmpo value values fr t none =>
    let cols := schema.map FieldSchema.name
    let mappedField := fixField cols field
    let fieldTruthy := match mappedField with
      | some f => f ≠ ""
      | none => false
    let fieldType := if fieldTruthy then typeOfField schema (mappedField.getD "") else .unknown
    let isList := fieldTruthy && listy schema (mappedField.getD "")
    let value' := if coercesValue op then coerceForField schema mappedField value else value
    let values' :=
      if op = .in_ || op = .nin then
        some ((values.getD []).map (coerceForField schema mappedField))
      else values
    let fr' := if op = .between then coerceForField schema mappedField fr else fr
    let t' := if op = .between then coerceForField schema mappedField t else t
    let fixed : FilterNode := .mk op mappedField cmpo value' values' fr' t' none
    let fixed2 : FilterNode :=
      if isList && fixed.op = .cmp && fixed.cmp = some .eq then
        .mk .includes mappedField none fixed.value none .undefined .undefined none
      else fixed
    let fixed3 : FilterNode :=
      if isList && fixed2.op = .contains then
        .mk .includes mappedField none fixed2.value none .undefined .undefined none
      else fixed2
    if soften && fixed3.op = .cmp && fixed3.cmp = some .eq && fieldTruthy &&
        (fieldType = .string || fieldType = .unknown) && !isList then
      .mk .contains mappedField none (.str (jsString (nullishToEmpty fixed3.value)))
        none .undefined .undefined none
    else fixed3

def walkList (schema : List FieldSchema) (soften : Bool) : List FilterNode → List FilterNode
  | [] => []
  | c :: cs => walk schema soften c :: walkList schema soften cs

end

/-- Embeds `repairFilter` of `filterRepair.ts` (`soften` defaults to false as
in the source's destructured options). -/
def repairFilter (node : FilterNode) (schema : List FieldSchema)
    (soften : Bool := false) : FilterNode :=
  walk schema soften node

end FilterRepair

/-- The three entity tabs. -/
inductive Entity where
  | clients | workers | tasks
deriving DecidableEq, Repr

namespace NlToDsl

/-- Characters matched by `[\w\s]` (the lazy field-phrase group). -/
def fieldCls (c : Char) : Bool := JS.isWordChar c || JS.isJsSpace c

/-- Characters matched by `[\w\- ]` (the value group body). -/
def valCls (c : Char) : Bool := JS.isWordChar c || c = '-' || c = ' '

/-- Does a whole remainder match the value group `("?[\w\- ]+"?|\d+)`?
The `\d+` alternative is subsumed by the first (digits are word characters);
an optional opening/closing quote wraps a non-empty `[\w\- ]+` body. -/
def valGroupOK (cs : List Char) : Bool :=
  match cs with
  | [] => false
  | _ =>
    let cs1 := match cs with
      | '"' :: t => t
      | _ => cs
    match cs1.getLast? with
    | none => false
    | some last =>
      if last = '"' then !cs1.dropLast.isEmpty && cs1.dropLast.all valCls
      else cs1.all valCls

/-- Does a whole remainder match the numeral group `-?\d+(\.\d+)?`
(`allowFrac := false` for the integral `-?\d+` of the phase shortcut)? -/
def numGroupOK (allowFrac : Bool) (cs : List Char) : Bool :=
  let cs1 := match cs with
    | '-' :: t => t
    | _ => cs
  let digs := cs1.takeWhile JS.isDigitChar
  if digs.isEmpty then false
  else
    match cs1.drop digs.length with
    | [] => true
    | '.' :: frac => allowFrac && !frac.isEmpty && frac.all JS.isDigitChar
    | _ => false

/-- Backtracking for `\s+(value)$`: the greedy `\s+` tries the longest space
run first and gives spaces back to the value group (whose class contains a
space) one at a time. Returns the captured group. -/
def spacesThenValGo (cs : List Char) : Nat → Option String
  | 0 => none
  | j + 1 =>
    let rest := cs.drop (j + 1)
    if valGroupOK rest then some (String.mk rest) else spacesThenValGo cs j

/-- Match `\s+("?[\w\- ]+"?|\d+)$` against a whole remainder. -/
def spacesThenVal (cs : List Char) : Option String :=
  spacesThenValGo cs (JS.countLeading JS.isJsSpace cs)

/-- Try keyword alternatives in regex order; on a keyword hit the continuation
must match the rest, otherwise the alternation backtracks to later keywords. -/
def tryKws (cont : List Char → Option String) (cs : List Char) :
    List String → Option String
  | [] => none
  | kw :: rest =>
    if JS.listLeadsCI kw.data cs then
      match cont (cs.drop kw.length) with
      | some r => some r
      | none => tryKws cont cs rest
    else tryKws cont cs rest

/-- Tail of regex 1 of `nlToDsl`: `\s+(?:includes?|contain(?:s)?)\s+(value)$`
(the greedy `s?`/`(?:s)?` make the alternative order
includes, include, contains, contain). -/
def rIncTail (cs : List Char) : Option String :=
  let k := JS.countLeading JS.isJsSpace cs
  if k = 0 then none
  else tryKws spacesThenVal (cs.drop k) ["includes", "include", "contains", "contain"]

/-- Tail of regex 2 of `nlToDsl`: `\s+(?:must be|should be|is|equals|=)\s+(value)$`. -/
def rEqTail (cs : List Char) : Option String :=
  let k := JS.countLeading JS.isJsSpace cs
  if k = 0 then none
  else tryKws spacesThenVal (cs.drop k) ["must be", "should be", "is", "equals", "="]

/-- Ordered comparator alternatives of regex 3: `(>=|<=|>|<|==|!=|=)`. -/
def symOps : List String := [">=", "<=", ">", "<", "==", "!=", "="]

def rSymTailGo (cs1 : List Char) : List String → Option (String × String)
  | [] => none
  | op :: rest =>
    if JS.listLeads op.data cs1 then
      let cs2 := cs1.drop op.length
      let cs3 := cs2.drop (JS.countLeading JS.isJsSpace cs2)
      if numGroupOK true cs3 then some (op, String.mk cs3)
      else rSymTailGo cs1 rest
    else rSymTailGo cs1 rest

/-- Tail of regex 3 of `nlToDsl`: `\s*(>=|<=|>|<|==|!=|=)\s*(-?\d+(\.\d+)?)$`
(the space runs are disjoint from the comparator and numeral characters, so
the greedy `\s*` are deterministic). -/
def rSymTail (cs : List Char) : Option (String × String) :=
  rSymTailGo (cs.drop (JS.countLeading JS.isJsSpace cs)) symOps

/-- Ordered worded-comparator alternatives of regex 4. -/
def wordCmpKws : List String :=
  ["less than", "more than", "greater than", "at least", "at most",
   "not equal to", "equal to", "equals"]

def rWordTailGo (cs1 : List Char) : List String → Option (String × String)
  | [] => none
  | kw :: rest =>
    if JS.listLeadsCI kw.data cs1 then
      let cs2 := cs1.drop kw.length
      let m := JS.countLeading JS.isJsSpace cs2
      let cs3 := cs2.drop m
      if m ≠ 0 && numGroupOK true cs3 then
        some (String.mk (cs1.take kw.length), String.mk cs3)
      else rWordTailGo cs1 rest
    else rWordTailGo cs1 rest

/-- Tail of regex 4 of `nlToDsl`: `\s+(worded cmp)\s+(-?\d+(\.\d+)?)$`. -/
def rWordTail (cs : List Char) : Option (String × String) :=
  let k := JS.countLeading JS.isJsSpace cs
  if k = 0 then none else rWordTailGo (cs.drop k) wordCmpKws

/-- The lazy `([\w\s]+?)` group: prefix lengths are tried shortest-first, and
the prefix can only grow while its characters stay in `[\w\s]`. -/
def lazyFieldGo {α : Type} (tail : List Char → Option α) (cs : List Char) :
    Nat → Nat → Option (String × α)
  | _, 0 => none
  | i, fuel + 1 =>
    match tail (cs.drop i) with
    | some r => some (String.mk (cs.take i), r)
    | none => lazyFieldGo tail cs (i + 1) fuel

/-- Match `^([\w\s]+?)tail` with the given whole-remainder tail matcher. -/
def lazyField {α : Type} (tail : List Char → Option α) (cs : List Char) :
    Option (String × α) :=
  lazyFieldGo tail cs 1 (JS.countLeading fieldCls cs)

/-- Regex 5 of `nlToDsl`: `^phase\s+(-?\d+)$`. -/
def rPhMatch (cs : List Char) : Option String :=
  if JS.listLeadsCI "phase".data cs then
    let cs1 := cs.drop 5
    let k := JS.countLeading JS.isJsSpace cs1
    let rest := cs1.drop k
    if k ≠ 0 && numGroupOK false rest then some (String.mk rest) else none
  else none

/-- Regex 6 of `nlToDsl`: `^skills?\s+("?[\w\- ]+"?)$` (greedy `s?`: the
`skills` reading is tried before `skill`). -/
def rSkillMatch (cs : List Char) : Option String :=
  tryKws spacesThenVal cs ["skills", "skill"]

/-- The global anchored replace `/^"|"$/g`: one opening and one closing quote
are stripped from the captured value. -/
def stripValQuotes (s : String) : String :=
  let d1 := match s.data with
    | '"' :: t => t
    | cs => cs
  String.mk (if d1.getLast? = some '"' then d1.dropLast else d1)

/-- Embeds `asNumberIfNumeric` of `nlToDsl.ts`. -/
def asNumberIfNumeric (v : String) : JVal :=
  match jsStrToNum v with
  | some n => .num n
  | none => .str v

/-- Embeds `toCmp` of `nlToDsl.ts` (substring checks on the lowercased word). -/
def toCmp (word : String) : Option CmpOp :=
  let w := JS.jsLower word
  if JS.strIncludes w "less" then some .lt
  else if JS.strIncludes w "more" || JS.strIncludes w "greater" then some .gt
  else if JS.strIncludes w "at least" then some .ge
  else if JS.strIncludes w "at most" then some .le
  else if JS.strIncludes w "not equal" then some .ne
  else if JS.strIncludes w "equal" then some .eq
  else if w = "equals" then some .eq
  else none

/-- The `sym[2] === '=' ? '==' : sym[2]` mapping of regex-3 comparators. -/
def symToCmp (op : String) : Option CmpOp :=
  if op = "=" then some .eq
  else if op = ">=" then some .ge
  else if op = "<=" then some .le
  else if op = ">" then some .gt
  else if op = "<" then some .lt
  else if op = "==" then some .eq
  else if op = "!=" then some .ne
  else none

/-- Collapse whitespace runs to single spaces (`replace(/\s+/g, ' ')`). -/
def collapseWsGo : List Char → Bool → List Char
  | [], _ => []
  | c :: rest, inRun =>
    if JS.isJsSpace c then
      if inRun then collapseWsGo rest true else ' ' :: collapseWsGo rest true
    else c :: collapseWsGo rest false

def collapseWs (s : String) : String := String.mk (collapseWsGo s.data false)

/-- Remove all whitespace (`replace(/\s+/g, '')`). -/
def removeWs (s : String) : String :=
  String.mk (s.data.filter (fun c => !JS.isJsSpace c))

/-- Split on a single literal character (JS `String.prototype.split(' ')`). -/
def splitCharGo (sep : Char) : List Char → List Char → List String
  | [], acc => [String.mk acc.reverse]
  | c :: cs, acc =>
    if c = sep then String.mk acc.reverse :: splitCharGo sep cs []
    else splitCharGo sep cs (c :: acc)

def splitChar (sep : Char) (s : String) : List String := splitCharGo sep s.data []

/-- Embeds `toTitleCaseNoSpaces` of `nlToDsl.ts`. -/
def toTitleCaseNoSpaces (s : String) : String :=
  String.join ((splitChar ' ' s).map (fun w =>
    match w.data with
    | [] => ""
    | c :: rest => String.mk (JS.upperChar c :: rest)))

/-- Embeds the entity-aware synonym table `syn` of `normalizeField`. -/
def synLookup : Entity → String → Option String
  | .clients, s =>
    if s = "priority" then some "PriorityLevel"
    else if s = "priority level" then some "PriorityLevel"
    else if s = "group" then some "GroupTag"
    else if s = "group tag" then some "GroupTag"
    else if s = "requested" then some "RequestedTaskIDs"
    else if s = "requested tasks" then some "RequestedTaskIDs"
    else if s = "name" then some "ClientName"
    else if s = "id" then some "ClientID"
    else if s = "attributes" then some "AttributesJSON"
    else none
  | .workers, s =>
    if s = "group" then some "WorkerGroup"
    else if s = "worker group" then some "WorkerGroup"
    else if s = "skills" then some "Skills"
    else if s = "skill" then some "Skills"
    else if s = "available slots" then some "AvailableSlots"
    else if s = "slot" then some "AvailableSlots"
    else if s = "max load per phase" then some "MaxLoadPerPhase"
    else if s = "qualification" then some "QualificationLevel"
    else if s = "name" then some "WorkerName"
    else if s = "id" then some "WorkerID"
    else none
  | .tasks, s =>
    if s = "duration" then some "Duration"
    else if s = "max concurrent" then some "MaxConcurrent"
    else if s = "concurrent" then some "MaxConcurrent"
    else if s = "preferred phases" then some "PreferredPhases"
    else if s = "phase" then some "PreferredPhases"
    else if s = "required skills" then some "RequiredSkills"
    else if s = "skills" then some "RequiredSkills"
    else if s = "category" then some "Category"
    else if s = "name" then some "TaskName"
    else if s = "id" then some "TaskID"
    else none

/-- Embeds `preferField` of `nlToDsl.ts`. -/
def preferField (candidates : List String) (fields : List String) : Option String :=
  candidates.findSome? (fun c => fields.find? (fun f => JS.jsLower f = JS.jsLower c))

/-- Embeds `normalizeField` of `nlToDsl.ts`. -/
def normalizeField (raw : String) (entity : Entity) (fields : List String) :
    Option String :=
  let s := collapseWs (JS.jsTrim (JS.jsLower raw))
  match synLookup entity s with
  | some synVal => some ((preferField [synVal] fields).getD synVal)
  | none =>
    match fields.find? (fun f => JS.jsLower f = s) with
    | some exact => some exact
    | none =>
      let collapsed := removeWs s
      match fields.find? (fun f => removeWs (JS.jsLower f) = collapsed) with
      | some found => some found
      | none =>
        let guess := toTitleCaseNoSpaces s
        if fields.contains guess then some guess else none

/-- Embeds `isListyField` of `nlToDsl.ts`
(`/skills|preferredphases|availableslots|requestedtaskids/i.test(field)`). -/
def isListyField (field : String) : Bool :=
  JS.strIncludesCI field "skills" || JS.strIncludesCI field "preferredphases" ||
    JS.strIncludesCI field "availableslots" || JS.strIncludesCI field "requestedtaskids"

/-- One iteration of the clause loop of `nlToDsl`: the six pattern families in
source order; a family only captures the clause when its regex matches and
(where required) its field phrase resolves, otherwise the next is tried. -/
def clauseToNode (entity : Entity) (fields : List String) (clause : String) :
    Option FilterNode :=
  let cs := clause.data
  let tryInc : Option FilterNode :=
    match lazyField rIncTail cs with
    | some (fraw, group) =>
      (normalizeField fraw entity fields).map (fun f =>
        includesNode f (asNumberIfNumeric (JS.jsTrim (stripValQuotes group))))
    | none => none
  let tryEq : Option FilterNode :=
    match lazyField rEqTail cs with
    | some (fraw, group) =>
      (normalizeField fraw entity fields).map (fun f =>
        cmpNode f .eq (asNumberIfNumeric (JS.jsTrim (stripValQuotes group))))
    | none => none
  let trySym : Option FilterNode :=
    match lazyField rSymTail cs with
    | some (fraw, (op, numStr)) =>
      match normalizeField fraw entity fields, symToCmp op with
      | some f, some c => some (cmpNode f c (.num ((jsStrToNum numStr).getD 0)))
      | _, _ => none
    | none => none
  let tryWord : Option FilterNode :=
    match lazyField rWordTail cs with
    | some (fraw, (kw, numStr)) =>
      match normalizeField fraw entity fields, toCmp kw with
      | some f, some c => some (cmpNode f c (.num ((jsStrToNum numStr).getD 0)))
      | _, _ => none
    | none => none
  let tryPh : Option FilterNode :=
    match rPhMatch cs with
    | some numStr =>
      some (includesNode ((preferField ["PreferredPhases"] fields).getD "PreferredPhases")
        (.num ((jsStrToNum numStr).getD 0)))
    | none => none
  let trySkill : Option FilterNode :=
    match rSkillMatch cs with
    | some group =>
      let fallback := if entity = .workers then "Skills" else "RequiredSkills"
      some (includesNode ((preferField [fallback] fields).getD fallback)
        (asNumberIfNumeric (JS.jsTrim (stripValQuotes group))))
    | none => none
  let tryBare : Option FilterNode :=
    match lazyField spacesThenVal cs with
    | some (fraw, group) =>
      (normalizeField fraw entity fields).map (fun f =>
        let value := asNumberIfNumeric (JS.jsTrim (stripValQuotes group))
        if isListyField f then includesNode f value else cmpNode f .eq value)
    | none => none
  tryInc <|> tryEq <|> trySym <|> tryWord <|> tryPh <|> trySkill <|> tryBare

/-- Match `\s+and\s+` at the current position (both runs greedy; the inner
literal must sit directly between them, so the match is deterministic). -/
def matchAndSep (cs : List Char) : Option Nat :=
  let k := JS.countLeading JS.isJsSpace cs
  if k = 0 then none
  else
    let cs1 := cs.drop k
    if JS.listLeadsCI "and".data cs1 then
      let cs2 := cs1.drop 3
      let m := JS.countLeading JS.isJsSpace cs2
      if m = 0 then none else some (k + 3 + m)
    else none

/-- Leftmost match of the clause separator `\s+and\s+|,|;` (position, length). -/
def findSepGo : List Char → Nat → Option (Nat × Nat)
  | [], _ => none
  | c :: rest, i =>
    match matchAndSep (c :: rest) with
    | some len => some (i, len)
    | none =>
      if c = ',' || c = ';' then some (i, 1) else findSepGo rest (i + 1)

/-- Split at every separator occurrence, scanning left to right. -/
def splitTopGo : Nat → List Char → List (List Char)
  | 0, cs => [cs]
  | fuel + 1, cs =>
    match findSepGo cs 0 with
    | some (i, len) => cs.take i :: splitTopGo fuel (cs.drop (i + len))
    | none => [cs]

/-- Global word-boundary replace `/\bword\b/gi → ' '` (scanning resumes after
each match; the boundary checks look at the original neighbouring characters). -/
def replaceWordGo (w : List Char) : Nat → List Char → Bool → List Char
  | 0, cs, _ => cs
  | fuel + 1, cs, prevIsWord =>
    match cs with
    | [] => []
    | c :: rest =>
      let afterOk :=
        match (cs.drop w.length).head? with
        | none => true
        | some d => !JS.isWordChar d
      if !prevIsWord && JS.listLeadsCI w cs && afterOk then
        ' ' :: replaceWordGo w fuel (cs.drop w.length) true
      else c :: replaceWordGo w fuel rest (JS.isWordChar c)

def replaceWord (w : String) (s : String) : String :=
  String.mk (replaceWordGo w.data (s.data.length + 1) s.data false)

/-- Embeds `splitClauses` of `nlToDsl.ts`. -/
def splitClauses (q : String) : List String :=
  let s1 := replaceWord "with" (replaceWord "where" q)
  (((splitTopGo (s1.data.length + 1) s1.data).map
      (fun cs => JS.jsTrim (String.mk cs))).filter (fun s => s ≠ ""))

/-- The clause loop of `nlToDsl`: unrecognized clauses are dropped. -/
def collectClauseNodes (entity : Entity) (fields : List String) :
    List String → List FilterNode
  | [] => []
  | c :: cs =>
    match clauseToNode entity fields (JS.jsTrim c) with
    | some n => n :: collectClauseNodes entity fields cs
    | none => collectClauseNodes entity fields cs

/-- Embeds `nlToDsl` of `nlToDsl.ts`. -/
def nlToDsl (nl : String) (entity : Entity) (fields : List String := []) :
    Option FilterNode :=
  let text := JS.jsTrim nl
  if text = "" then none
  else
    match collectClauseNodes entity fields (splitClauses text) with
    | [] => none
    | [c] => some c
    | cs => some (andNode cs)

end NlToDsl

namespace NlFallback

/-- Length of the first alternative (in regex order) matching at this
position, case-insensitively. -/
def altAt (cs : List Char) : List String → Option Nat
  | [] => none
  | alt :: rest =>
    if JS.listLeadsCI alt.data cs then some alt.length else altAt cs rest

/-- Leftmost match of an ordered literal alternation: (position, length). -/
def findFirstAlt (alts : List String) : List Char → Nat → Option (Nat × Nat)
  | [], _ => none
  | c :: rest, i =>
    match altAt (c :: rest) alts with
    | some len => some (i, len)
    | none => findFirstAlt alts rest (i + 1)

/-- Embeds `sanitize` of `nlFallback.ts`: strip one leading and one trailing
quote character, then trim. -/
def sanitize (v : String) : String :=
  let quote := fun (c : Char) => c = '"' || c = '\x27' || c = Char.ofNat 96
  let d1 := match v.data with
    | c :: t => if quote c then t else v.data
    | [] => []
  let d2 := match d1.getLast? with
    | some c => if quote c then d1.dropLast else d1
    | none => d1
  JS.jsTrim (String.mk d2)

/-- The token cut of `extractAfter`: the part of `rest` before the earliest
match of `[.,;]| and | or ` (the whole string when none matches). -/
def firstSegment (rest : String) : String :=
  match findFirstAlt [".", ",", ";", " and ", " or "] rest.data 0 with
  | some (i, _) => String.mk (rest.data.take i)
  | none => rest

/-- Embeds `extractAfter` of `nlFallback.ts` for an ordered literal
alternation: slice after the leftmost match, trim, cut at the first
separator, trim, sanitize. `none` models the `null` of a failed match. -/
def extractAfter (s : String) (alts : List String) : Option String :=
  match findFirstAlt alts s.data 0 with
  | none => none
  | some (i, len) =>
    let rest := JS.jsTrim (String.mk (s.data.drop (i + len)))
    some (sanitize (JS.jsTrim (firstSegment rest)))

/-- The JS `a || b` over `extractAfter` results (`null` and `''` both fall
through to the second operand). -/
def orFalsy (a b : Option String) : Option String :=
  if a.getD "" = "" then b else a

/-- Is an `extractAfter` result truthy (`if (val)`)? -/
def truthyStr (a : Option String) : Bool := a.getD "" ≠ ""

/-- The numeral matched at this position by the numeral regex `-?\d+(\.\d+)?`, if any. -/
def matchNumAt (cs : List Char) : Option (List Char) :=
  let (sign, cs1) := match cs with
    | '-' :: t => (['-'], t)
    | _ => (([] : List Char), cs)
  let digs := cs1.takeWhile JS.isDigitChar
  if digs.isEmpty then none
  else
    let frac := match cs1.drop digs.length with
      | '.' :: ds =>
        let f := ds.takeWhile JS.isDigitChar
        if f.isEmpty then [] else '.' :: f
      | _ => []
    some (sign ++ digs ++ frac)

def extractNumberGo : List Char → Option Rat
  | [] => none
  | c :: rest =>
    match matchNumAt (c :: rest) with
    | some m => jsStrToNum (String.mk m)
    | none => extractNumberGo rest

/-- Embeds `extractNumber` of `nlFallback.ts` (leftmost numeral, as a finite
number). -/
def extractNumber (s : String) : Option Rat := extractNumberGo s.data

/-- Embeds `pickCmp` of `nlFallback.ts` (ordered substring probes on the
lowercased text). -/
def pickCmp (s : String) : Option CmpOp :=
  let t := JS.jsLower s
  if JS.strIncludes t ">=" then some .ge
  else if JS.strIncludes t "<=" then some .le
  else if JS.strIncludes t ">" then some .gt
  else if JS.strIncludes t "<" then some .lt
  else if JS.strIncludes t "!=" then some .ne
  else if JS.strIncludes t "=" || JS.strIncludes t " equals " || JS.strIncludes t " is "
    then some .eq
  else if JS.strIncludes t "less than" then some .lt
  else if JS.strIncludes t "greater than" then some .gt
  else none

def extractTaskIdGo : List Char → Bool → Option String
  | [], _ => none
  | c :: rest, prevW =>
    if !prevW && (c = 'T' || c = 't') then
      let digs := rest.takeWhile JS.isDigitChar
      let after := rest.drop digs.length
      if !digs.isEmpty && !((after.head?.map JS.isWordChar).getD false) then
        some (String.mk (c :: digs))
      else extractTaskIdGo rest (JS.isWordChar c)
    else extractTaskIdGo rest (JS.isWordChar c)

/-- Embeds `extractTaskId` of `nlFallback.ts` (`/\bT\d+\b/i`, leftmost). -/
def extractTaskId (s : String) : Option String := extractTaskIdGo s.data false

/-- The keyword part of `/skills?\s+(include|includes|contain|contains)\s+/i`
after the spaces: one alternative (in order) followed by at least one space. -/
def skillsKwTail (cs : List Char) : Bool :=
  ["include", "includes", "contain", "contains"].any (fun kw =>
    JS.listLeadsCI kw.data cs &&
      JS.countLeading JS.isJsSpace (cs.drop kw.length) ≠ 0)

/-- Spaces-then-keyword part of the guard, after `skills?`. -/
def skillsSpacesKw (cs : List Char) : Bool :=
  let k := JS.countLeading JS.isJsSpace cs
  k ≠ 0 && skillsKwTail (cs.drop k)

/-- Match of the guard at one position: `skill`, greedy optional `s`, spaces,
keyword, spaces. -/
def skillsGuardAt (cs : List Char) : Bool :=
  JS.listLeadsCI "skill".data cs &&
    (match cs.drop 5 with
     | c :: rest =>
       if c = 's' || c = 'S' then skillsSpacesKw rest || skillsSpacesKw (c :: rest)
       else skillsSpacesKw (c :: rest)
     | [] => false)

def testSkillsIncGo : List Char → Bool
  | [] => false
  | c :: rest => skillsGuardAt (c :: rest) || testSkillsIncGo rest

/-- Embeds the guard `/skills?\s+(include|includes|contain|contains)\s+/i.test(text)`. -/
def testSkillsInc (s : String) : Bool := testSkillsIncGo s.data

/-- Embeds `heuristicFilter` of `nlFallback.ts`: each entity's intent probes
in source order; a probe whose extracted value is falsy falls through to the
next probe. -/
def heuristicFilter (entity : Entity) (text : String) (schema : List FieldSchema) :
    Option FilterNode :=
  let has := fun (name : String) => schema.any (fun s => s.name = name)
  match entity with
  | .workers =>
    (if testSkillsInc text && has "Skills" then
        let val := extractAfter text ["include", "includes", "contain", "contains"]
        if truthyStr val then some (includesNode "Skills" (.str (val.getD ""))) else none
      else none) <|>
    (if JS.strIncludesCI text "group" && has "WorkerGroup" then
        let val := orFalsy (extractAfter text ["=", "equals", "is"])
          (extractAfter text ["group"])
        if truthyStr val then some (cmpNode "WorkerGroup" .eq (.str (val.getD "")))
        else none
      else none) <|>
    (if JS.strIncludesCI text "slot" && has "AvailableSlots" then
        match extractNumber text with
        | some n => some (includesNode "AvailableSlots" (.num n))
        | none => none
      else none) <|>
    (if JS.strIncludesCI text "qual" && has "QualificationLevel" then
        match extractNumber text with
        | some n => some (cmpNode "QualificationLevel" .gt (.num n))
        | none => none
      else none)
  | .clients =>
    (if JS.strIncludesCI text "priority" && has "PriorityLevel" then
        match pickCmp text, extractNumber text with
        | some c, some n => some (cmpNode "PriorityLevel" c (.num n))
        | _, _ => none
      else none) <|>
    (if JS.strIncludesCI text "group" && has "GroupTag" then
        let val := orFalsy (extractAfter text ["=", "equals", "is"])
          (extractAfter text ["group"])
        if truthyStr val then some (cmpNode "GroupTag" .eq (.str (val.getD "")))
        else none
      else none) <|>
    (if JS.strIncludesCI text "requested" && has "RequestedTaskIDs" then
        match extractTaskId text with
        | some id => some (containsNode "RequestedTaskIDs" (.str id))
        | none => none
      else none)
  | .tasks =>
    (if JS.strIncludesCI text "duration" && has "Duration" then
        match pickCmp text, extractNumber text with
        | some c, some n => some (cmpNode "Duration" c (.num n))
        | _, _ => none
      else none) <|>
    (if JS.strIncludesCI text "phase" && has "PreferredPhases" then
        match extractNumber text with
        | some n => some (includesNode "PreferredPhases" (.num n))
        | none => none
      else none) <|>
    (if JS.strIncludesCI text "skill" && has "RequiredSkills" then
        let val := extractAfter text ["include", "includes", "contain", "contains"]
        if truthyStr val then some (includesNode "RequiredSkills" (.str (val.getD "")))
        else none
      else none)

end NlFallback

namespace NlRoute

mutual

/-- Embeds `pruneToKnownFields` of `route.ts`: composites keep the pruned
survivors of their children; a leaf with a truthy unknown field is dropped. -/
def pruneToKnownFields (validCols : List String) : FilterNode → Option FilterNode
  | .mk op field cmpo value values fr t (some cs) =>
    some (.mk op field cmpo value values fr t (some (pruneList validCols cs)))
  | .mk op field cmpo value values fr t none =>
    match field with
    | some f =>
      if f ≠ "" && !validCols.contains f then none
      else some (.mk op field cmpo value values fr t none)
    | none => some (.mk op field cmpo value values fr t none)

def pruneList (validCols : List String) : List FilterNode → List FilterNode
  | [] => []
  | c :: cs =>
    match pruneToKnownFields validCols c with
    | some n => n :: pruneList validCols cs
    | none => pruneList validCols cs

end

/-- Embeds `hasAnyKnownField` of `route.ts`. The recursion over `children` is
commented out in the source, so only the root node's own `field` is
consulted; `none` embeds the `null` a fully pruned tree can become. -/
def hasAnyKnownField (node : Option FilterNode) (validCols : List String) : Bool :=
  match node with
  | none => false
  | some n =>
    match n.field with
    | some f => f ≠ "" && validCols.contains f
    | none => false

/-- Embeds `finalizeFilter` of `route.ts`: repair with `soften=false`, prune
to known columns, and replace the result by the heuristic translation of the
same text whenever `hasAnyKnownField` rejects it (`hf ?? cleaned`). -/
def finalizeFilter (entity : Entity) (raw : FilterNode) (schema : List FieldSchema)
    (text : String) : Option FilterNode :=
  let repaired := FilterRepair.repairFilter raw schema false
  let validCols := schema.map FieldSchema.name
  let cleaned := pruneToKnownFields validCols repaired
  if hasAnyKnownField cleaned validCols then cleaned
  else
    match NlFallback.heuristicFilter entity text schema with
    | some hf => some hf
    | none => cleaned

/-- The observable outcome of one `fetch` to the generation endpoint, the
only part of `callOllama` outside the program: the service is unreachable
(fetch throws, including the abort-timeout), answers a non-ok status, answers
ok with an unparseable body, answers ok with a JSON body lacking a `response`
property, or answers ok with a `response` value. -/
inductive ServiceOutcome where
  | unreachable (details : String)
  | httpError (status : Nat) (body : String)
  | okNonJson
  | okNoRespField (payload : JVal)
  | okResponse (resp : JVal)

/-- Embeds the return value of `callOllama` for each service outcome: every
failure path returns a (truthy) `_error` object; only an ok response with a
`response` property returns that property's value. -/
def callOllama : ServiceOutcome → JVal
  | .unreachable details => .obj [("_error", .str "fetch_failed"), ("details", .str details)]
  | .httpError status body =>
    .obj [("_error", .str "http_error"), ("status", .num (mkRat status 1)),
      ("body", .str body)]
  | .okNonJson => .obj [("_error", .str "bad_payload"), ("json", .jnull)]
  | .okNoRespField payload => .obj [("_error", .str "bad_payload"), ("json", payload)]
  | .okResponse resp => resp

/-- Embeds the failure `reason` of `POST` (line 74 of the route):
`(!r1 && !r2) ? 'no_response' : 'invalid_json'` over the raw `callOllama`
results of the two attempts. -/
def nlFailureReason (r1 r2 : JVal) : String :=
  if !r1.truthy && !r2.truthy then "no_response" else "invalid_json"

end NlRoute

/-! Claim-side (specification) definitions and the claim theorems. -/

/-- Numeric comparison, as the spec describes the `cmp` numeric mode. -/
def numericCmpSpec (c : CmpOp) (l r : Rat) : Bool :=
  match c with
  | .gt => decide (l > r)
  | .ge => decide (l ≥ r)
  | .lt => decide (l < r)
  | .le => decide (l ≤ r)
  | .eq => decide (l = r)
  | .ne => decide (l ≠ r)

/-- Lexical comparison of two already-normalized strings, as the spec
describes the `cmp` string mode (code-unit order, all six operators). -/
def stringCmpSpec (c : CmpOp) (l r : String) : Bool :=
  match c with
  | .eq => decide (l = r)
  | .ne => decide (l ≠ r)
  | .gt => JS.jsStrLt r l
  | .ge => JS.jsStrLt r l || decide (l = r)
  | .lt => JS.jsStrLt l r
  | .le => JS.jsStrLt l r || decide (l = r)

/-- The four `Duration` rows of the spec's §8 example. -/
def durationRows : List Row :=
  [[("Duration", .num 1)], [("Duration", .num 2)], [("Duration", .num 3)],
   [("Duration", .str "4")]]

/-- The three encodings of the same two-token cell from the spec's §8 example. -/
def tagRowArr : Row := [("Tags", .arr [.str "x", .str "y"])]

def tagRowJson : Row := [("Tags", .str "[\"x\",\"y\"]")]

def tagRowCsv : Row := [("Tags", .str "x,y")]

/-- The tasks schema used for the pipeline claims. -/
def durationSchema : List FieldSchema := [⟨"Duration", .number, [.num 1, .num 2]⟩]

/-- Field resolution as the spec words it: exact column match, then
case-insensitive exact match, then 3-gram Jaccard similarity on lowercased
separator-stripped names accepted only at a best score of at least `0.65`,
then substring containment of the normalized input in a normalized column
name, otherwise the input unchanged. -/
def resolveFieldSpec (cols : List String) (f : String) : String :=
  match cols.find? (fun c => c = f) with
  | some m => m
  | none =>
    match cols.find? (fun c => JS.jsLower c = JS.jsLower f) with
    | some m => m
    | none =>
      match FilterRepair.bestSim (FilterRepair.normalize f) cols with
      | some (bc, bs) =>
        if bs ≥ mkRat 13 20 then bc
        else
          (cols.find? (fun c =>
            JS.strIncludes (FilterRepair.normalize c) (FilterRepair.normalize f))).getD f
      | none =>
        (cols.find? (fun c =>
          JS.strIncludes (FilterRepair.normalize c) (FilterRepair.normalize f))).getD f

/-- List-likeness as C6 must be amended to read: array-typed, or some sample
is JSON-array-shaped (whatever the type), or the column is string-typed and
some sample contains a comma — a comma in a sample of a non-string column
does not make the column list-like. -/
def listLikeSpec (s : FieldSchema) : Bool :=
  decide (s.type = .array) ||
    s.samples.any (fun v =>
      FilterRepair.looksJsonArray (JS.jsTrim (jsString (nullishToEmpty v)))) ||
    (decide (s.type = .string) &&
      s.samples.any (fun v =>
        JS.strIncludes (JS.jsTrim (jsString (nullishToEmpty v))) ","))

/-- Array-likeness as the spec words it: a native list, or a string that
parses (after trimming) as a JSON array. -/
def isArrayLikeSpec : JVal → Bool
  | .arr _ => true
  | .str s => (jsonParseFlatArr (JS.jsTrim s)).isSome
  | _ => false

/-- The fixed type-priority cascade of the claim, over the sampled values. -/
def typePrioritySpec (vals : List JVal) : FieldType :=
  if vals.any isArrayLikeSpec then .array
  else if vals.all isNumericLike then .number
  else if vals.all isBooleanLike then .boolean
  else if vals.any isDateLike then .date
  else .string

/-- C3: for every row list `R` and filter node `N`, `applyFilter R N` is a
subsequence of `R` (so every returned row occurs in `R`, in input order), and
`applyFilter` is idempotent. -/
theorem claim_C3_applyFilter_sublist_idempotent :
    ∀ (R : List Row) (N : FilterNode),
      List.Sublist (applyFilter R N) R ∧
      applyFilter (applyFilter R N) N = applyFilter R N := by
  intro R N
  exact ⟨List.filter_sublist R, by simp [applyFilter, List.filter_filter]⟩

/-- C4: a `cmp` leaf compares numerically when both the cell and the filter
value parse as finite numbers and otherwise compares the trimmed lower-cased
strings, for all six operators; over the rows with `Duration` 1, 2, 3, `"4"`,
`cmp Duration > 2` returns exactly the rows with `3` and `"4"`. -/
theorem claim_C4_cmp_numeric_else_lexical :
    (∀ (row : Row) (f : String) (c : CmpOp) (v : JVal),
      testNode row (cmpNode f c v) =
        match jsToNumber (rowGetKey row f), jsToNumber v with
        | some l, some r => numericCmpSpec c l r
        | _, _ => stringCmpSpec c (normStr (rowGetKey row f)) (normStr v)) ∧
    applyFilter durationRows (cmpNode "Duration" .gt (.num 2)) =
      [[("Duration", .num 3)], [("Duration", .str "4")]] := by
  constructor
  · intro row f c v
    show cmpEval (rowGetKey row f) (some c) v = _
    unfold cmpEval
    cases hL : jsToNumber (rowGetKey row f) <;> cases hR : jsToNumber v <;>
      cases c <;> rfl
  · decide

/-- C5: an `includes` leaf sees the native array `["x","y"]`, the JSON string
`'["x","y"]'` and the CSV string `"x,y"` as the same token list `[x, y]`, and
matches exactly when some token equals or contains the normalized needle. -/
theorem claim_C5_includes_encoding_agnostic :
    (cellToTokens (.arr [.str "x", .str "y"]) = ["x", "y"] ∧
      cellToTokens (.str "[\"x\",\"y\"]") = ["x", "y"] ∧
      cellToTokens (.str "x,y") = ["x", "y"]) ∧
    ∀ (needle : JVal),
      testNode tagRowArr (includesNode "Tags" needle) =
          testNode tagRowJson (includesNode "Tags" needle) ∧
      testNode tagRowJson (includesNode "Tags" needle) =
          testNode tagRowCsv (includesNode "Tags" needle) ∧
      (testNode tagRowArr (includesNode "Tags" needle) = true ↔
        ∃ t ∈ ["x", "y"],
          t = normStr needle ∨ JS.strIncludes t (normStr needle) = true) := by
  refine ⟨⟨by decide, by decide, by decide⟩, fun needle => ⟨rfl, rfl, ?_⟩⟩
  show (["x", "y"].any fun t =>
      decide (t = normStr needle) || JS.strIncludes t (normStr needle)) = true ↔ _
  simp [List.any_eq_true]

/-- C9: a `not` node consults only its first child (further children are
ignored), a childless `not` evaluates the absent child as `false` and hence
matches every row, and `applyFilter` with a childless `not` leaf returns the
whole input list. -/
theorem claim_C9_not_first_child_only :
    (∀ (row : Row) (c : FilterNode) (rest : List FilterNode) (f : Option String)
        (cm : Option CmpOp) (v : JVal) (vs : Option (List JVal)) (fr t : JVal),
      testNode row (.mk .not f cm v vs fr t (some (c :: rest))) = !testNode row c) ∧
    (∀ (row : Row) (f : Option String) (cm : Option CmpOp) (v : JVal)
        (vs : Option (List JVal)) (fr t : JVal),
      testNode row (.mk .not f cm v vs fr t none) = true ∧
      testNode row (.mk .not f cm v vs fr t (some [])) = true) ∧
    (∀ (rows : List Row) (f : String) (v : JVal),
      applyFilter rows (.mk .not (some f) none v none .undefined .undefined none) = rows) := by
  refine ⟨fun _ _ _ _ _ _ _ _ _ => rfl, fun _ _ _ _ _ _ _ => ⟨rfl, rfl⟩,
    fun rows f v => ?_⟩
  show rows.filter (fun _ => true) = rows
  rw [List.filter_eq_self]
  intro a _
  rfl

/-- C1: on the AI filter `{op:'and', children:[{op:'cmp', field:'Duration',
cmp:'>', value:2}]}` for the text `"duration > 2"`, the repaired-and-pruned
tree still references the known column `Duration` inside the composite's
child, yet `hasAnyKnownField` (whose child recursion is commented out)
reports no known field, so `finalizeFilter` discards the pruned tree and
returns the heuristic translation instead of returning it as-is. -/
theorem claim_C1_composite_with_known_child_falls_back :
    NlRoute.pruneToKnownFields ["Duration"]
        (FilterRepair.repairFilter (andNode [cmpNode "Duration" .gt (.num 2)])
          durationSchema false) =
      some (andNode [cmpNode "Duration" .gt (.num 2)]) ∧
    (andNode [cmpNode "Duration" .gt (.num 2)]).children =
      some [cmpNode "Duration" .gt (.num 2)] ∧
    (cmpNode "Duration" .gt (.num 2)).field = some "Duration" ∧
    NlRoute.hasAnyKnownField (some (andNode [cmpNode "Duration" .gt (.num 2)]))
      ["Duration"] = false ∧
    NlRoute.finalizeFilter .tasks (andNode [cmpNode "Duration" .gt (.num 2)])
      durationSchema "duration > 2" = some (cmpNode "Duration" .gt (.num 2)) ∧
    some (cmpNode "Duration" .gt (.num 2)) ≠
      some (andNode [cmpNode "Duration" .gt (.num 2)]) := by
  refine ⟨by decide, rfl, rfl, by decide, by decide, by decide⟩

/-- C2: when both AI attempts fail because the service is unreachable or
answers an error status — the cases the claim calls "no response at all" —
the `reason` is `'invalid_json'`, not `'no_response'`: every failure path of
`callOllama` returns a truthy `_error` object, so `!r1 && !r2` cannot see it.
`'no_response'` is produced exactly when both attempts returned an ok JSON
payload whose `response` field is falsy (for example the empty string). -/
theorem claim_C2_reason_no_response_unreachable :
    NlRoute.nlFailureReason (NlRoute.callOllama (.unreachable "fetch failed"))
        (NlRoute.callOllama (.unreachable "fetch failed")) = "invalid_json" ∧
    NlRoute.nlFailureReason (NlRoute.callOllama (.httpError 500 "boom"))
        (NlRoute.callOllama (.httpError 500 "boom")) = "invalid_json" ∧
    NlRoute.nlFailureReason (NlRoute.callOllama (.okResponse (.str "")))
        (NlRoute.callOllama (.okResponse (.str ""))) = "no_response" ∧
    (∀ (o1 o2 : NlRoute.ServiceOutcome),
      NlRoute.nlFailureReason (NlRoute.callOllama o1) (NlRoute.callOllama o2) =
          "no_response" ↔
        ((∃ v, o1 = .okResponse v ∧ v.truthy = false) ∧
          (∃ v, o2 = .okResponse v ∧ v.truthy = false))) := by
  refine ⟨by decide, by decide, by decide, fun o1 o2 => ?_⟩
  cases o1 <;> cases o2 <;>
    simp [NlRoute.callOllama, NlRoute.nlFailureReason, JVal.truthy]

/-- C7: `fixField` resolves a (non-empty) field name by the cascade of
`resolveFieldSpec`; `"priority level"` resolves to `"PriorityLevel"` (their
normalized forms coincide, similarity 1), and `"zzz"` scores below `0.65`
against `"PriorityLevel"`, is no substring of it, and is returned unchanged. -/
theorem claim_C7_field_resolution_cascade :
    (∀ (cols : List String) (f : String), f ≠ "" →
      FilterRepair.fixField cols (some f) = some (resolveFieldSpec cols f)) ∧
    FilterRepair.fixField ["PriorityLevel"] (some "priority level") =
      some "PriorityLevel" ∧
    FilterRepair.stringSim (FilterRepair.normalize "priority level")
      (FilterRepair.normalize "PriorityLevel") = 1 ∧
    FilterRepair.stringSim (FilterRepair.normalize "zzz")
      (FilterRepair.normalize "PriorityLevel") < mkRat 13 20 ∧
    JS.strIncludes (FilterRepair.normalize "PriorityLevel")
      (FilterRepair.normalize "zzz") = false ∧
    FilterRepair.fixField ["PriorityLevel"] (some "zzz") = some "zzz" := by
  refine ⟨fun cols f hf => ?_, by decide, by decide, by decide, by decide, by decide⟩
  simp only [FilterRepair.fixField, resolveFieldSpec, if_neg hf]
  cases h1 : cols.find? (fun c => c = f) <;>
    cases h2 : cols.find? (fun c => JS.jsLower c = JS.jsLower f) <;>
      cases h3 : FilterRepair.bestSim (FilterRepair.normalize f) cols <;>
        simp [h1, h2, h3]
  split <;> rfl

/-- Witness for the cascade of C7 at a concrete input. -/
theorem claim_C7_field_resolution_cascade_witness :
    "priority level" ≠ "" ∧
    FilterRepair.fixField ["PriorityLevel"] (some "priority level") =
      some (resolveFieldSpec ["PriorityLevel"] "priority level") :=
  ⟨by decide, claim_C7_field_resolution_cascade.1 ["PriorityLevel"] "priority level"
    (by decide)⟩

/-- C8 counterexample: a single resolved clause is returned as the bare leaf,
not combined under an `'and'` node as the claim asserts for recognized
clauses. -/
theorem claim_C8_single_clause_not_wrapped :
    NlToDsl.nlToDsl "duration > 2" .tasks ["Duration", "PreferredPhases"] =
      some (cmpNode "Duration" .gt (.num 2)) ∧
    (cmpNode "Duration" .gt (.num 2)).op ≠ .and := by
  exact ⟨by decide, by decide⟩

/-- C8 (amended): the two-clause example yields the expected `and` node; in
general `nlToDsl` returns `null` exactly when zero clauses resolved, a single
resolved clause is returned as that node itself, and two or more resolved
clauses are combined under a single `and` node. -/
theorem claim_C8_and_combination :
    NlToDsl.nlToDsl "duration > 2 and phase 3" .tasks ["Duration", "PreferredPhases"] =
      some (andNode [cmpNode "Duration" .gt (.num 2),
        includesNode "PreferredPhases" (.num 3)]) ∧
    (∀ (nl : String) (entity : Entity) (fields : List String),
      NlToDsl.nlToDsl nl entity fields = none ↔
        NlToDsl.collectClauseNodes entity fields
          (NlToDsl.splitClauses (JS.jsTrim nl)) = []) ∧
    (∀ (nl : String) (entity : Entity) (fields : List String) (c : FilterNode)
        (cs : List FilterNode),
      NlToDsl.collectClauseNodes entity fields
          (NlToDsl.splitClauses (JS.jsTrim nl)) = c :: cs →
      NlToDsl.nlToDsl nl entity fields =
        some (if cs.isEmpty then c else andNode (c :: cs))) := by
  refine ⟨by decide, fun nl entity fields => ?_, fun nl entity fields c cs h => ?_⟩
  · by_cases ht : JS.jsTrim nl = ""
    · have hs : NlToDsl.splitClauses "" = [] := rfl
      simp [NlToDsl.nlToDsl, ht, hs, NlToDsl.collectClauseNodes]
    · simp only [NlToDsl.nlToDsl, ht, if_neg ht]
      rcases hc : NlToDsl.collectClauseNodes entity fields
          (NlToDsl.splitClauses (JS.jsTrim nl)) with _ | ⟨c, _ | ⟨d, cs⟩⟩ <;>
        simp [hc]
  · by_cases ht : JS.jsTrim nl = ""
    · rw [ht] at h
      have hs : NlToDsl.splitClauses "" = [] := rfl
      rw [hs] at h
      simp [NlToDsl.collectClauseNodes] at h
    · simp only [NlToDsl.nlToDsl, if_neg ht, h]
      cases cs <;> simp

/-- Witness for the combination rule of C8 at the two-clause example. -/
theorem claim_C8_and_combination_witness :
    NlToDsl.collectClauseNodes .tasks ["Duration", "PreferredPhases"]
        (NlToDsl.splitClauses (JS.jsTrim "duration > 2 and phase 3")) =
      [cmpNode "Duration" .gt (.num 2), includesNode "PreferredPhases" (.num 3)] ∧
    NlToDsl.nlToDsl "duration > 2 and phase 3" .tasks ["Duration", "PreferredPhases"] =
      some (if ([includesNode "PreferredPhases" (.num 3)] : List FilterNode).isEmpty
        then cmpNode "Duration" .gt (.num 2)
        else andNode [cmpNode "Duration" .gt (.num 2),
          includesNode "PreferredPhases" (.num 3)]) :=
  ⟨by decide, claim_C8_and_combination.2.2 "duration > 2 and phase 3" .tasks
    ["Duration", "PreferredPhases"] (cmpNode "Duration" .gt (.num 2))
    [includesNode "PreferredPhases" (.num 3)] (by decide)⟩

theorem list_any_or {α : Type} (l : List α) (p q : α → Bool) :
    l.any (fun x => p x || q x) = (l.any p || l.any q) := by
  induction l with
  | nil => rfl
  | cons x xs ih =>
    cases hp : p x <;> cases hq : q x <;> simp [List.any_cons, ih, hp, hq]

/-- C6 counterexample: on an array-typed column `F`, the equality-`cmp` leaf
`{cmp:'==', field:'F', value:'a'}` is rewritten to an `includes` leaf whose
value is the *coerced* `["a"]`, not the original `'a'` the claim promises. -/
theorem claim_C6_value_is_coerced_counterexample :
    FilterRepair.repairFilter (cmpNode "F" .eq (.str "a")) [⟨"F", .array, []⟩] false =
      includesNode "F" (.arr [.str "a"]) ∧
    includesNode "F" (.arr [.str "a"]) ≠ includesNode "F" (.str "a") := by
  exact ⟨by decide, by decide⟩

/-- C6 (amended): the per-column list-likeness is `listLikeSpec` (comma
samples only count on string-typed columns); on a list-like resolved field an
equality-`cmp` leaf and a `contains` leaf become `includes` carrying the
field-coerced value (on an array-typed field a scalar `V` becomes the
one-element array `[V]`); a `cmp` leaf with a non-equality operator, or on a
field that is not list-like, keeps the operator `cmp` (at `soften = false`). -/
theorem claim_C6_list_upgrade_with_coercion :
    (∀ s : FieldSchema, FilterRepair.listyEntry s = listLikeSpec s) ∧
    (∀ (schema : List FieldSchema) (f f' : String) (v : JVal),
      FilterRepair.fixField (schema.map FieldSchema.name) (some f) = some f' →
      f' ≠ "" → FilterRepair.listy schema f' = true →
      FilterRepair.repairFilter (cmpNode f .eq v) schema false =
          includesNode f' (FilterRepair.coerceForField schema (some f') v) ∧
      FilterRepair.repairFilter (containsNode f v) schema false =
          includesNode f' (FilterRepair.coerceForField schema (some f') v)) ∧
    (∀ (schema : List FieldSchema) (f f' : String) (c : CmpOp) (v : JVal),
      FilterRepair.fixField (schema.map FieldSchema.name) (some f) = some f' →
      (c ≠ .eq ∨ f' = "" ∨ FilterRepair.listy schema f' = false) →
      (FilterRepair.repairFilter (cmpNode f c v) schema false).op = .cmp) ∧
    FilterRepair.repairFilter (cmpNode "F" .eq (.str "a")) [⟨"F", .array, []⟩] false =
      includesNode "F" (.arr [.str "a"]) := by
  refine ⟨fun s => ?_, fun schema f f' v hfix hne hlisty => ⟨?_, ?_⟩,
    fun schema f f' c v hfix h => ?_, by decide⟩
  · unfold FilterRepair.listyEntry listLikeSpec
    cases hTy : s.type <;> simp [hTy] <;> rw [list_any_or] <;> simp [Bool.or_comm]
  · show FilterRepair.walk schema false (cmpNode f .eq v) = _
    simp [FilterRepair.walk, cmpNode, includesNode, hfix, hne, hlisty,
      FilterRepair.coercesValue, FilterNode.op, FilterNode.cmp, FilterNode.value]
  · show FilterRepair.walk schema false (containsNode f v) = _
    simp [FilterRepair.walk, containsNode, includesNode, hfix, hne, hlisty,
      FilterRepair.coercesValue, FilterNode.op, FilterNode.cmp, FilterNode.value]
  · show (FilterRepair.walk schema false (cmpNode f c v)).op = .cmp
    rcases h with h | h | h <;>
      simp [FilterRepair.walk, cmpNode, hfix, h,
        FilterRepair.coercesValue, FilterNode.op, FilterNode.cmp, FilterNode.value]

/-- Witness for the list-upgrade rule of C6 at the array-typed column. -/
theorem claim_C6_list_upgrade_with_coercion_witness :
    FilterRepair.fixField (([⟨"F", FieldType.array, []⟩] : List FieldSchema).map
        FieldSchema.name) (some "F") = some "F" ∧
    FilterRepair.listy [⟨"F", FieldType.array, []⟩] "F" = true ∧
    FilterRepair.repairFilter (cmpNode "F" .eq (.str "a")) [⟨"F", .array, []⟩] false =
      includesNode "F"
        (FilterRepair.coerceForField [⟨"F", .array, []⟩] (some "F") (.str "a")) :=
  ⟨by decide, by decide,
    (claim_C6_list_upgrade_with_coercion.2.1 [⟨"F", .array, []⟩] "F" "F" (.str "a")
      (by decide) (by decide) (by decide)).1⟩

theorem skipJsonWs_suffix (cs : List Char) : skipJsonWs cs <:+ cs := by
  induction cs with
  | nil => simp [skipJsonWs]
  | cons c rest ih =>
    by_cases h : c = ' ' || c = '\t' || c = '\n' || c = '\x0d'
    · simpa [skipJsonWs, h] using ih.trans (List.suffix_cons c rest)
    · simp [skipJsonWs, h]

theorem skipJsonWs_all_ws : ∀ (cs : List Char), skipJsonWs cs = [] →
    ∀ c ∈ cs, JS.isJsSpace c = true := by
  intro cs
  induction cs with
  | nil => intro _ c hc; simp at hc
  | cons d rest ih =>
    intro h c hc
    by_cases hd : d = ' ' || d = '\t' || d = '\n' || d = '\x0d'
    · rw [show skipJsonWs (d :: rest) = skipJsonWs rest by simp [skipJsonWs, hd]] at h
      rcases List.mem_cons.mp hc with hc | hc
      · subst hc
        simp [JS.isJsSpace] at hd ⊢
        tauto
      · exact ih h c hc
    · rw [show skipJsonWs (d :: rest) = d :: rest by simp [skipJsonWs, hd]] at h
      simp at h

theorem skipJsonWs_eq_self (cs : List Char)
    (h : ∀ c, cs.head? = some c → JS.isJsSpace c = false) : skipJsonWs cs = cs := by
  cases cs with
  | nil => rfl
  | cons c rest =>
    have hc := h c rfl
    have hcond : (c = ' ' || c = '\t' || c = '\n' || c = '\x0d') = false := by
      simp [JS.isJsSpace] at hc ⊢
      tauto
    simp [skipJsonWs, hcond]

theorem scanJsonString_suffix :
    ∀ (cs acc : List Char) (rest : List Char) (str : String),
      scanJsonString cs acc = some (str, rest) → rest <:+ cs := by
  intro cs
  induction cs with
  | nil => intro acc rest str h; simp [scanJsonString] at h
  | cons c cr ih =>
    intro acc rest str h
    by_cases hc : c = '"'
    · subst hc
      simp [scanJsonString] at h
      rw [← h.2]
      exact (List.suffix_cons '"' cr)
    · by_cases hb : c = '\\'
      · subst hb; simp [scanJsonString] at h
      · have he : scanJsonString (c :: cr) acc = scanJsonString cr (c :: acc) := by
          conv_lhs => rw [scanJsonString.eq_def]
          simp [hc, hb]
        rw [he] at h
        exact (ih (c :: acc) rest str h).trans (List.suffix_cons c cr)

theorem parseJsonNumber_suffix (neg : Bool) (cs1 : List Char) (v : JVal)
    (rest : List Char) (h : parseJsonNumber neg cs1 = some (v, rest)) :
    rest <:+ cs1 := by
  rw [parseJsonNumber.eq_def] at h
  dsimp only at h
  split at h
  · simp at h
  · split at h
    · split at h
      · simp at h
      · simp at h
        rw [← h.2]
        rename_i fracRest _ _
        refine (List.drop_suffix _ _).trans ?_
        refine (List.suffix_cons '.' fracRest).trans ?_
        rename_i heq _
        rw [← heq]
        exact List.drop_suffix _ _
    · simp at h
      rw [← h.2]
      exact List.drop_suffix _ _

theorem parseJsonScalar_suffix (cs : List Char) (v : JVal) (rest : List Char)
    (h : parseJsonScalar cs = some (v, rest)) : rest <:+ cs := by
  rw [parseJsonScalar.eq_def] at h
  split at h
  · next rest2 =>
    rcases ho : scanJsonString rest2 [] with _ | ⟨str, r2⟩ <;> rw [ho] at h <;>
      simp at h
    rw [← h.2]
    exact (scanJsonString_suffix rest2 [] r2 str ho).trans (List.suffix_cons '"' rest2)
  · split at h
    · simp at h; rw [← h.2]; exact List.drop_suffix 4 _
    · split at h
      · simp at h; rw [← h.2]; exact List.drop_suffix 5 _
      · split at h
        · simp at h; rw [← h.2]; exact List.drop_suffix 4 _
        · split at h
          · exact (parseJsonNumber_suffix _ _ _ _ h).trans (List.suffix_cons _ _)
          · exact parseJsonNumber_suffix _ _ _ _ h

theorem parseJsonItems_shape :
    ∀ (fuel : Nat) (cs : List Char) (items : List JVal) (tail : List Char),
      parseJsonItems fuel cs = some (items, tail) → (']' :: tail) <:+ cs := by
  intro fuel
  induction fuel with
  | zero => intro cs items tail h; simp [parseJsonItems] at h
  | succ fuel ih =>
    intro cs items tail h
    rw [parseJsonItems.eq_def] at h
    dsimp only at h
    rcases hs : parseJsonScalar (skipJsonWs cs) with _ | ⟨v, rest⟩ <;> rw [hs] at h <;>
      dsimp only at h
    · simp at h
    · have hsfx1 : rest <:+ cs :=
        (parseJsonScalar_suffix _ _ _ hs).trans (skipJsonWs_suffix cs)
      rcases hm : skipJsonWs rest with _ | ⟨c2, rest2⟩ <;> rw [hm] at h
      · simp at h
      · by_cases hc2 : c2 = ','
        · subst hc2
          simp only [List.cons.injEq] at h
          rcases hp : parseJsonItems fuel rest2 with _ | ⟨items2, tail2⟩ <;>
            rw [hp] at h <;> simp at h
          have h2 := ih rest2 items2 tail (by rw [hp, h.2])
          refine h2.trans ?_
          have hx : rest2 <:+ skipJsonWs rest := by
            rw [hm]; exact List.suffix_cons ',' rest2
          exact (hx.trans (skipJsonWs_suffix rest)).trans hsfx1
        · by_cases hb2 : c2 = ']'
          · subst hb2
            simp only [Option.some.injEq, Prod.mk.injEq] at h
            have hx : (']' :: tail) <:+ skipJsonWs rest := by rw [hm, h.2]
            exact (hx.trans (skipJsonWs_suffix rest)).trans hsfx1
          · simp [hc2, hb2] at h

theorem dropLeading_head (p : Char → Bool) :
    ∀ (cs : List Char) (c : Char), (JS.dropLeading p cs).head? = some c → p c = false := by
  intro cs
  induction cs with
  | nil => intro c h; simp [JS.dropLeading] at h
  | cons d rest ih =>
    intro c h
    by_cases hd : p d
    · rw [show JS.dropLeading p (d :: rest) = JS.dropLeading p rest by
        simp [JS.dropLeading, hd]] at h
      exact ih c h
    · rw [show JS.dropLeading p (d :: rest) = d :: rest by
        simp [JS.dropLeading, hd]] at h
      simp at h
      rw [← h]
      simp [hd]

theorem dropLeading_suffix (p : Char → Bool) (cs : List Char) :
    JS.dropLeading p cs <:+ cs := by
  induction cs with
  | nil => simp [JS.dropLeading]
  | cons d rest ih =>
    by_cases hd : p d
    · simpa [JS.dropLeading, hd] using ih.trans (List.suffix_cons d rest)
    · simp [JS.dropLeading, hd]

theorem jsTrim_head (s : String) (c : Char) :
    (JS.jsTrim s).data.head? = some c → JS.isJsSpace c = false := by
  intro h
  exact dropLeading_head JS.isJsSpace _ c h

theorem jsTrim_last (s : String) (c : Char) :
    (JS.jsTrim s).data.getLast? = some c → JS.isJsSpace c = false := by
  intro h
  unfold JS.jsTrim at h
  set u := JS.dropLeading JS.isJsSpace s.data.reverse with hu
  obtain ⟨pre, hpre⟩ := dropLeading_suffix JS.isJsSpace u.reverse
  simp only at h
  rcases he : JS.dropLeading JS.isJsSpace u.reverse with _ | ⟨d, ds⟩
  · rw [he] at h; simp at h
  · rw [he] at h
    rw [he] at hpre
    have hlast : u.reverse.getLast? = some c := by
      rw [← hpre, List.getLast?_append_cons]
      exact h
    rw [List.getLast?_reverse] at hlast
    exact dropLeading_head JS.isJsSpace _ c hlast

theorem getLast_ws_of_tail (t : String) (pre tail : List Char)
    (hlast : ∀ c, t.data.getLast? = some c → JS.isJsSpace c = false)
    (hpre : pre ++ ']' :: tail = t.data) (hws : skipJsonWs tail = []) :
    tail = [] := by
  rcases ht : tail with _ | ⟨d, ds⟩
  · rfl
  · exfalso
    rw [ht] at hpre hws
    have hne : (d :: ds) ≠ ([] : List Char) := by simp
    have hmem : (d :: ds).getLast hne ∈ d :: ds := List.getLast_mem hne
    have hwsc := skipJsonWs_all_ws _ hws _ hmem
    have hlastt : t.data.getLast? = some ((d :: ds).getLast hne) := by
      rw [← hpre, List.getLast?_append_cons,
        show (']' :: d :: ds) = [']'] ++ d :: ds from rfl,
        List.getLast?_append_cons, List.getLast?_eq_getLast _ hne]
    have := hlast _ hlastt
    rw [hwsc] at this
    simp at this

theorem jsonParse_some_brackets (t : String) (items : List JVal)
    (hhead : ∀ c, t.data.head? = some c → JS.isJsSpace c = false)
    (hlast : ∀ c, t.data.getLast? = some c → JS.isJsSpace c = false)
    (h : jsonParseFlatArr t = some items) :
    JS.jsStartsWith t "[" = true ∧ JS.jsEndsWith t "]" = true := by
  rw [jsonParseFlatArr.eq_def] at h
  have hskip : skipJsonWs t.data = t.data := skipJsonWs_eq_self t.data hhead
  rw [hskip] at h
  rcases hd : t.data with _ | ⟨c0, rest⟩ <;> rw [hd] at h
  · simp at h
  · by_cases hc0 : c0 = '['
    case neg => simp [hc0] at h
    subst hc0
    simp only [List.cons.injEq] at h
    have hstart : JS.jsStartsWith t "[" = true := by
      simp [JS.jsStartsWith, hd, JS.listLeads]
    refine ⟨hstart, ?_⟩
    have hshape : ∃ tail, (']' :: tail) <:+ rest ∧ skipJsonWs tail = [] := by
      rcases hm : skipJsonWs rest with _ | ⟨c1, rest1⟩ <;> rw [hm] at h
      · exact Option.noConfusion h
      · by_cases hc1 : c1 = ']'
        · subst hc1
          simp only [List.cons.injEq] at h
          split at h
          · rename_i hempty
            refine ⟨rest1, ?_, by simpa using hempty⟩
            have hx : (']' :: rest1) <:+ skipJsonWs rest := by rw [hm]
            exact hx.trans (skipJsonWs_suffix rest)
          · simp at h
        · split at h
          case _ tail heq =>
            rw [List.cons.injEq] at heq
            exact absurd heq.1 hc1
          rcases hp : parseJsonItems ((c1 :: rest1).length + 1) (c1 :: rest1)
              with _ | ⟨items2, tail2⟩ <;> rw [hp] at h <;> dsimp only at h
          · simp at h
          · split at h
            · rename_i hempty
              refine ⟨tail2, ?_, by simpa using hempty⟩
              have h1 := parseJsonItems_shape _ _ _ _ hp
              have h2 : (c1 :: rest1) <:+ skipJsonWs rest := by rw [hm]
              exact (h1.trans h2).trans (skipJsonWs_suffix rest)
            · simp at h
    obtain ⟨tail, ⟨pre, hpre⟩, hws⟩ := hshape
    have hpre2 : ('[' :: pre) ++ ']' :: tail = t.data := by
      rw [hd]; simp [hpre]
    have htail : tail = [] := getLast_ws_of_tail t ('[' :: pre) tail hlast hpre2 hws
    rw [htail] at hpre2
    show JS.listLeads "]".data t.data.reverse = true
    rw [← hpre2]
    simp [JS.listLeads]

theorem isDigitChar_digitChar (k : Nat) : JS.isDigitChar (digitChar k) = true := by
  unfold digitChar
  split <;> decide

theorem mem_natDecCharsGo :
    ∀ (fuel n : Nat) (c : Char), c ∈ natDecCharsGo fuel n → JS.isDigitChar c = true := by
  intro fuel
  induction fuel with
  | zero => intro n c hc; simp [natDecCharsGo] at hc
  | succ fuel ih =>
    intro n c hc
    simp only [natDecCharsGo] at hc
    by_cases hn : n < 10
    · rw [if_pos hn] at hc
      simp at hc
      rw [hc]
      exact isDigitChar_digitChar n
    · rw [if_neg hn] at hc
      rcases List.mem_append.mp hc with hc | hc
      · exact ih _ c hc
      · simp at hc
        rw [hc]
        exact isDigitChar_digitChar _

theorem mem_ratToJsString (q : Rat) (c : Char) (hc : c ∈ (ratToJsString q).data) :
    JS.isDigitChar c = true ∨ c = '-' ∨ c = '/' := by
  have hnat : ∀ (n : Nat), c ∈ (natToDecString n).data → JS.isDigitChar c = true :=
    fun n h => mem_natDecCharsGo _ _ c h
  have hint : ∀ (i : Int), c ∈ (intToDecString i).data →
      JS.isDigitChar c = true ∨ c = '-' := by
    intro i h
    unfold intToDecString at h
    rcases List.mem_append.mp (by
        simpa [String.data_append] using h) with h | h
    · by_cases hi : i < 0
      · rw [if_pos hi] at h
        simp at h
        right; exact h
      · rw [if_neg hi] at h
        simp at h
    · left; exact hnat _ h
  unfold ratToJsString at hc
  by_cases hden : q.den = 1
  · rw [if_pos hden] at hc
    rcases hint _ hc with h | h
    · exact Or.inl h
    · exact Or.inr (Or.inl h)
  · rw [if_neg hden] at hc
    have h3 : c ∈ (intToDecString q.num).data ∨ c = '/' ∨
        c ∈ (natToDecString q.den).data := by
      simpa [String.data_append] using hc
    rcases h3 with h | h | h
    · rcases hint _ h with h4 | h4
      · exact Or.inl h4
      · exact Or.inr (Or.inl h4)
    · exact Or.inr (Or.inr h)
    · exact Or.inl (hnat _ h)

theorem mem_jsTrim (s : String) (c : Char) (hc : c ∈ (JS.jsTrim s).data) :
    c ∈ s.data := by
  unfold JS.jsTrim at hc
  simp only at hc
  have h1 := (dropLeading_suffix JS.isJsSpace
    (JS.dropLeading JS.isJsSpace s.data.reverse).reverse).subset hc
  have h2 := List.mem_reverse.mp h1
  have h3 := (dropLeading_suffix JS.isJsSpace s.data.reverse).subset h2
  exact List.mem_reverse.mp h3

theorem isArrayLike_eq_spec : ∀ v, isArrayLike v = isArrayLikeSpec v := by
  intro v
  have key : ∀ (s : String),
      (if JS.jsStartsWith (JS.jsTrim s) "[" && JS.jsEndsWith (JS.jsTrim s) "]"
        then (jsonParseFlatArr (JS.jsTrim s)).isSome
        else if JS.strIncludes (JS.jsTrim s) "," then false else false) =
      (jsonParseFlatArr (JS.jsTrim s)).isSome := by
    intro s
    rcases hp : jsonParseFlatArr (JS.jsTrim s) with _ | items
    · simp [hp]
    · have hb := jsonParse_some_brackets (JS.jsTrim s) items
        (fun c hc => jsTrim_head s c hc) (fun c hc => jsTrim_last s c hc) hp
      simp [hp, hb.1, hb.2]
  cases v with
  | arr l => rfl
  | str s =>
    show (if JS.jsStartsWith (JS.jsTrim s) "[" && JS.jsEndsWith (JS.jsTrim s) "]"
        then (jsonParseFlatArr (JS.jsTrim s)).isSome
        else if JS.strIncludes (JS.jsTrim s) "," then false else false) = _
    rw [key s]
    rfl
  | undefined => rfl
  | jnull => rfl
  | bool b => cases b <;> rfl
  | num q =>
    have hstart : JS.jsStartsWith (JS.jsTrim (ratToJsString q)) "[" = false := by
      rcases hdata : (JS.jsTrim (ratToJsString q)).data with _ | ⟨c, rest⟩
      · simp [JS.jsStartsWith, hdata, JS.listLeads]
      · have hcmem : c ∈ (ratToJsString q).data :=
          mem_jsTrim _ c (by rw [hdata]; exact List.mem_cons_self c rest)
        have hco : JS.isDigitChar c = true ∨ c = '-' ∨ c = '/' :=
          mem_ratToJsString q c hcmem
        simp [JS.jsStartsWith, hdata, JS.listLeads]
        intro heq
        rcases hco with h | h | h
        · rw [← heq] at h
          exact absurd h (by decide)
        · rw [h] at heq
          exact absurd heq (by decide)
        · rw [h] at heq
          exact absurd heq (by decide)
    show (if JS.jsStartsWith (JS.jsTrim (ratToJsString q)) "[" &&
          JS.jsEndsWith (JS.jsTrim (ratToJsString q)) "]"
        then (jsonParseFlatArr (JS.jsTrim (ratToJsString q))).isSome
        else if JS.strIncludes (JS.jsTrim (ratToJsString q)) "," then false
          else false) = false
    simp [hstart]
  | obj fields => rfl

/-- C10: `inferSchema` assigns each field the first applicable type in the
fixed priority order — array if ANY sampled non-null value is a native list
or a string parsing as a JSON array, else number if ALL parse as finite
numbers, else boolean if ALL parse as true/false, else date if ANY parses as
a valid date, else string — and a plain comma-containing string does not
count as array-like. -/
theorem claim_C10_inferSchema_type_priority :
    (∀ v, isArrayLike v = isArrayLikeSpec v) ∧
    (∀ (rows : List Row) (maxS : Nat) (fs : FieldSchema),
      fs ∈ inferSchema rows maxS →
      fs.type = typePrioritySpec (sampledValues rows fs.name)) ∧
    isArrayLike (.str "a,b") = false ∧
    isArrayLike (.str "[\"a\",\"b\"]") = true ∧
    isArrayLike (.arr [.str "a"]) = true := by
  refine ⟨isArrayLike_eq_spec, ?_, by decide, by decide, by decide⟩
  intro rows maxS fs hmem
  cases rows with
  | nil => simp [inferSchema] at hmem
  | cons r0 rest =>
    simp only [inferSchema] at hmem
    obtain ⟨name, hname, hfs⟩ := List.mem_map.mp hmem
    rw [← hfs]
    simp only [typePrioritySpec]
    rw [(funext isArrayLike_eq_spec : isArrayLike = isArrayLikeSpec)]

/-- Witness for the type-priority rule of C10 on the `Duration` table. -/
theorem claim_C10_inferSchema_type_priority_witness :
    (⟨"Duration", .number, [.num 1, .num 2, .num 3, .num 4]⟩ : FieldSchema) ∈
        inferSchema durationRows 6 ∧
    (⟨"Duration", FieldType.number,
        [.num 1, .num 2, .num 3, .num 4]⟩ : FieldSchema).type =
      typePrioritySpec (sampledValues durationRows "Duration") :=
  ⟨by decide, claim_C10_inferSchema_type_priority.2.1 durationRows 6 _ (by decide)⟩
